import Mathlib

/-!
# Postfix interpreter: stack, tree nodes, parser, evaluator

A shallow embedding of `stack.c`, `tree_node.c`, `symtab.c`, `parser.c` and of
`load`, `eval` and `prompt` of `interp.c`.

Conventions of the embedding.
* A C function that can stop the process (an `exit(EXIT_FAILURE)`, a NULL
  dereference, a read of freed memory) returns `Except Fault _`.
* `malloc` and `strdup` are taken to succeed.
* Diagnostic text written to stdout and stderr is not part of the model; the
  text `print_infix` writes is its result.
* A `char *` that the code never receives as NULL is a `String`; `tok[0]` of
  the empty string is the terminator, character 0.
* A C `int` is an `Int` kept in the 32-bit range by `wrap_int`.
-/

namespace Interp

/-! ## Abnormal termination -/

/-- Ways in which a call stops without returning to its caller: an
`exit(EXIT_FAILURE)`, a NULL dereference, a read of freed memory, a read of data
through a pointer cast to another record type. `out_of_fuel` belongs to the model only: `parse_fuel_enough` shows that `parse`
never produces it. -/
inductive Fault where
  | exit_failure
  | null_deref
  | use_after_free
  | bad_cast
  | out_of_fuel
  deriving DecidableEq, Repr

deriving instance DecidableEq for Except

/-! ## stack.c -/

/-- The `stack_t` of stack.c: `live nodes` is the linked list reachable from
`stack->top` (top first). `dangling` is the state `free_stack` leaves behind
when it has released nodes: `stack->top` still holds the address of a freed
node. -/
inductive stack_t (α : Type) where
  | live (nodes : List α)
  | dangling
  deriving DecidableEq, Repr

/-- The test `((char *)data)[0] == 0` that `push` applies to whatever it is
given. -/
class FirstByte (α : Type) where
  first_byte_zero : α → Bool

/-- First character of a C string: the terminator when the string is empty. -/
def first_char (s : String) : Char := s.data.headD (Char.ofNat 0)

instance : FirstByte String := ⟨fun s => first_char s = Char.ofNat 0⟩

/-- Embedding of `make_stack`: a stack whose `top` is NULL. -/
def make_stack {α : Type} : stack_t α := .live []

/-- Embedding of `empty_stack`: `stack->top == NULL`. A dangling `top` is not NULL. -/
def empty_stack {α : Type} : stack_t α → Bool
  | .live [] => true
  | .live (_ :: _) => false
  | .dangling => false

/-- Embedding of `push`. Data whose first byte is zero is dropped with a
warning; otherwise a node is linked in front and the whole list is walked for
printing, which reads freed memory when the stack is dangling. -/
def push {α : Type} [FirstByte α] (stack : stack_t α) (data : α) : Except Fault (stack_t α) :=
  if FirstByte.first_byte_zero data then .ok stack
  else
    match stack with
    | .live nodes => .ok (.live (data :: nodes))
    | .dangling => .error .use_after_free

/-- Embedding of `top`: exits on an empty stack, else `stack->top->data`. -/
def top {α : Type} : stack_t α → Except Fault α
  | .live [] => .error .exit_failure
  | .live (d :: _) => .ok d
  | .dangling => .error .use_after_free

/-- Embedding of `pop`: exits on an empty stack, else unlinks the top node. -/
def pop {α : Type} : stack_t α → Except Fault (stack_t α)
  | .live [] => .error .exit_failure
  | .live (_ :: rest) => .ok (.live rest)
  | .dangling => .error .use_after_free

/-- Embedding of `free_stack`: `cur = stack->top; while (cur->next != NULL) ...`.
With `top == NULL` the loop test dereferences NULL. With one node the loop body
never runs and nothing changes. With two or more nodes every node but the last
is freed and `stack->top` is left pointing at the first freed node. -/
def free_stack {α : Type} : stack_t α → Except Fault (stack_t α)
  | .live [] => .error .null_deref
  | .live [d] => .ok (.live [d])
  | .live (_ :: _ :: _) => .ok .dangling
  | .dangling => .error .use_after_free

/-- The test `stack->top == NULL || stack->top->next == NULL` of `parse`. -/
def fewer_than_two {α : Type} : stack_t α → Except Fault Bool
  | .live [] => .ok true
  | .live [_] => .ok true
  | .live (_ :: _ :: _) => .ok false
  | .dangling => .error .use_after_free

/-- Number of nodes reachable from `top`; used to bound the recursion of `parse`. -/
def stack_t.size {α : Type} : stack_t α → Nat
  | .live nodes => nodes.length
  | .dangling => 0

/-! ## tree_node.c -/

/-- Expression kind of a leaf; the enum is declared in tree_node.h. -/
inductive exp_type_t where
  | INTEGER
  | SYMBOL
  deriving DecidableEq, Repr

/-- Operator kind of an interior node; the enum is declared in tree_node.h. -/
inductive op_type_t where
  | ADD_OP
  | SUB_OP
  | MUL_OP
  | DIV_OP
  | MOD_OP
  | ASSIGN_OP
  | Q_OP
  | ALT_OP
  deriving DecidableEq, Repr

/-- The record a leaf's `node` field is meant to point to. -/
structure leaf_node_t where
  exp_type : exp_type_t
  deriving DecidableEq, Repr

/-- A value of type `tree_node_t *`. `leaf token node` is a node of type LEAF
whose `node` field is NULL (`none`) or points to a leaf record. `interior token
op left right` is a node of type INTERIOR whose `node` field points to an
`interior_node_t` with those three fields. -/
inductive tree_node_t where
  | NULL
  | leaf (token : String) (node : Option leaf_node_t)
  | interior (token : String) (op : op_type_t) (left right : tree_node_t)
  deriving DecidableEq, Repr

/-- Embedding of `make_interior`. -/
def make_interior (op : op_type_t) (token : String) (left right : tree_node_t) : tree_node_t :=
  if left = .NULL ∨ right = .NULL then .NULL
  else if first_char token = Char.ofNat 0 then .NULL
  else .interior token op left right

/-- Embedding of `make_leaf`. The leaf record is allocated and receives
`exp_type`, but the function ends with `node->node = NULL`, so the returned
node does not point to it. -/
def make_leaf (exp_type : exp_type_t) (token : String) : tree_node_t :=
  let _leaf : leaf_node_t := ⟨exp_type⟩
  .leaf token none

/-! ## parser.c: token classification -/

/-- The `while (*str)` loop of `is_num`. -/
def is_num_loop : List Char → Bool
  | [] => true
  | c :: cs => if c < (Char.ofNat 48) ∨ c > (Char.ofNat 57) then false else is_num_loop cs

/-- Embedding of `is_num`: empty string is rejected, one leading minus sign is
skipped, then every remaining character must be a digit. -/
def is_num (str : String) : Bool :=
  match str.data with
  | [] => false
  | c :: cs => if c = Char.ofNat 45 then is_num_loop cs else is_num_loop (c :: cs)

/-- Embedding of `is_operator`. -/
def is_operator (token : String) : Bool :=
  token = "+" ∨ token = "-" ∨ token = "*" ∨ token = "/" ∨ token = "%" ∨ token = "="

/-- Embedding of `isalpha` in the C locale. -/
def isalpha (c : Char) : Bool := c.isAlpha

/-- Modelled from the spec: the operator strings `ADD_OP_STR` ... `ASSIGN_OP_STR`
are macros of the header parser.h, which is not part of the sources; the spec
lists the binary operator symbols as `+ - * / % =`. -/
def ADD_OP_STR : String := "+"

/-- Modelled from the spec: see `ADD_OP_STR`. -/
def SUB_OP_STR : String := "-"

/-- Modelled from the spec: see `ADD_OP_STR`. -/
def MUL_OP_STR : String := "*"

/-- Modelled from the spec: see `ADD_OP_STR`. -/
def DIV_OP_STR : String := "/"

/-- Modelled from the spec: see `ADD_OP_STR`. -/
def MOD_OP_STR : String := "%"

/-- Modelled from the spec: see `ADD_OP_STR`. -/
def ASSIGN_OP_STR : String := "="

/-- The `strcmp` chain of `parse` that selects `op`; `none` is its final `else`. -/
def select_op (oper : String) : Option op_type_t :=
  if oper = ADD_OP_STR then some .ADD_OP
  else if oper = SUB_OP_STR then some .SUB_OP
  else if oper = MUL_OP_STR then some .MUL_OP
  else if oper = DIV_OP_STR then some .DIV_OP
  else if oper = MOD_OP_STR then some .MOD_OP
  else if oper = ASSIGN_OP_STR then some .ASSIGN_OP
  else none

/-- The test `!node || !node->token || node->token[0] == 0` of `parse`. -/
def node_unusable : tree_node_t → Bool
  | .NULL => true
  | .leaf token _ => first_char token = Char.ofNat 0
  | .interior token _ _ _ => first_char token = Char.ofNat 0

/-! ## parser.c: parse -/

/-- Embedding of `parse`, with the recursion depth bounded by `fuel`. Every
path through the body of the `while` loop returns, so the loop body runs once.
The result pairs the returned pointer with the stack as the call leaves it. -/
def parseFuel : Nat → stack_t String → Except Fault (tree_node_t × stack_t String)
  | 0, _ => .error .out_of_fuel
  | fuel + 1, stack =>
    if empty_stack stack then .ok (.NULL, stack)
    else do
      let tok ← top stack
      let stack ← pop stack
      if first_char tok = Char.ofNat 0 then
        let stack ← free_stack stack
        return (.NULL, stack)
      else if is_num tok then
        return (make_leaf .INTEGER tok, stack)
      else if isalpha (first_char tok) then
        return (make_leaf .SYMBOL tok, stack)
      else if is_operator tok then
        if (← fewer_than_two stack) then
          let stack ← free_stack stack
          return (.NULL, stack)
        else
          let oper := tok
          let (right, stack) ← parseFuel fuel stack
          let (left, stack) ← parseFuel fuel stack
          match select_op oper with
          | none =>
            let stack ← free_stack stack
            return (.NULL, stack)
          | some op =>
            let node := make_interior op oper left right
            if node_unusable node then
              let stack ← free_stack stack
              return (.NULL, stack)
            else
              return (node, stack)
      else if tok = "?" then
        let (con, stack) ← parseFuel fuel stack
        if con = .NULL then return (.NULL, stack)
        else
          let (t, stack) ← parseFuel fuel stack
          if t = .NULL then return (.NULL, stack)
          else
            let (f, stack) ← parseFuel fuel stack
            if f = .NULL then return (.NULL, stack)
            else
              let n := make_interior .ALT_OP ":" t f
              if n = .NULL then
                let stack ← free_stack stack
                return (.NULL, stack)
              else
                return (make_interior .Q_OP "?" con n, stack)
      else if tok ≠ ":" then
        let (t, stack) ← parseFuel fuel stack
        let (f, stack) ← parseFuel fuel stack
        if t = .NULL ∨ f = .NULL then return (.NULL, stack)
        else return (make_interior .ALT_OP ":" t f, stack)
      else
        let stack ← free_stack stack
        return (.NULL, stack)

/-- Embedding of `parse`: each recursive call is made after a `pop`, so a depth
of one more than the number of nodes is never exhausted. -/
def parse (stack : stack_t String) : Except Fault (tree_node_t × stack_t String) :=
  parseFuel (stack.size + 1) stack

/-- Pushes the tokens in order (the last one ends on top), as the tests do. -/
def push_all {α : Type} [FirstByte α] : stack_t α → List α → Except Fault (stack_t α)
  | stack, [] => .ok stack
  | stack, d :: ds => do
    let stack ← push stack d
    push_all stack ds

/-- Tokens that `parse` turns into a leaf: `is_num(tok)` or `isalpha(tok[0])`. -/
def is_leaf_token (tok : String) : Bool := is_num tok || isalpha (first_char tok)

/-- Tokens that reach the operator branch of `parse`: neither of the two leaf
tests holds and `is_operator(tok)` does. -/
def is_binary_token (tok : String) : Bool :=
  !is_num tok && !isalpha (first_char tok) && is_operator tok

/-- The leaf `parse` builds for a leaf token: `make_leaf(INTEGER, tok)` when
`is_num(tok)`, else `make_leaf(SYMBOL, tok)`. -/
def leaf_of (tok : String) : tree_node_t :=
  if is_num tok then make_leaf .INTEGER tok else make_leaf .SYMBOL tok

/-! ## parser.c: make_parse_tree -/

/-- The calls `strtok(exp, " ")`, `strtok(NULL, " ")`, ... until NULL: the
maximal runs of characters other than the space, in order. `cur` holds the
characters of the current run, last first. -/
def strtok_all (cur : List Char) : List Char → List String
  | [] => if cur = [] then [] else [String.mk cur.reverse]
  | c :: cs =>
    if c = Char.ofNat 32 then
      if cur = [] then strtok_all [] cs else String.mk cur.reverse :: strtok_all [] cs
    else strtok_all (c :: cur) cs

/-- The test `strspn(tok, " \t\n\r") == strlen(tok)`: every character of the
token is a space, tab, newline or carriage return. -/
def only_blanks (tok : String) : Bool :=
  tok.data.all (fun c => c = Char.ofNat 32 ∨ c = Char.ofNat 9 ∨ c = Char.ofNat 10 ∨ c = Char.ofNat 13)

/-- What the stack of `make_parse_tree` holds behind its `void *`: duplicated
tokens (`inl`) and, after the leaf is built, one tree node (`inr`). -/
abbrev parse_tree_data := String ⊕ tree_node_t

/-- The first-byte test of `push` on the data of `make_parse_tree`. For a tree
node the byte read is the first byte of the `tree_node_t` record, whose layout
is declared in tree_node.h, not part of the sources: it is the parameter
`node_first_byte_zero`. -/
def parse_tree_first_byte (node_first_byte_zero : tree_node_t → Bool) :
    FirstByte parse_tree_data :=
  ⟨fun d => match d with
    | .inl tok => first_char tok = Char.ofNat 0
    | .inr node => node_first_byte_zero node⟩

/-- The `while (tok != NULL)` loop of `make_parse_tree`. -/
def push_tokens (node_first_byte_zero : tree_node_t → Bool) :
    stack_t parse_tree_data → List String → Except Fault (stack_t parse_tree_data)
  | stk, [] => .ok stk
  | stk, tok :: toks =>
    if first_char tok ≠ Char.ofNat 0 ∧ only_blanks tok = false then do
      let stk ← @push _ (parse_tree_first_byte node_first_byte_zero) stk (.inl tok)
      push_tokens node_first_byte_zero stk toks
    else push_tokens node_first_byte_zero stk toks

/-- The test `stk->top != NULL && stk->top->next == NULL` of `make_parse_tree`. -/
def exactly_one {α : Type} : stack_t α → Except Fault Bool
  | .live [] => .ok false
  | .live [_] => .ok true
  | .live (_ :: _ :: _) => .ok false
  | .dangling => .error .use_after_free

/-- The last statement of `make_parse_tree`: with exactly one node on the
stack, take it as the root, pop it and call `free_stack` before returning it;
otherwise call `free_stack` and return NULL. -/
def make_parse_tree_finish (stk : stack_t parse_tree_data) : Except Fault tree_node_t := do
  if (← exactly_one stk) then
    let root ← top stk
    let stk ← pop stk
    let _ ← free_stack stk
    match root with
    | .inr node => return node
    | .inl _ => .error .bad_cast
  else
    let _ ← free_stack stk
    return .NULL

/-- Embedding of `make_parse_tree`. -/
def make_parse_tree (node_first_byte_zero : tree_node_t → Bool) (exp : String) :
    Except Fault tree_node_t :=
  if exp.data = [] then .ok .NULL
  else do
    let stk ← push_tokens node_first_byte_zero make_stack (strtok_all [] exp.data)
    if empty_stack stk then
      let _ ← free_stack stk
      return .NULL
    else
      let data ← top stk
      let stk ← pop stk
      match data with
      | .inr _ => .error .bad_cast
      | .inl tok =>
        if first_char tok = Char.ofNat 0 ∨ only_blanks tok then
          let _ ← free_stack stk
          return .NULL
        else if is_num tok then
          let node := make_leaf .INTEGER tok
          let stk ← @push _ (parse_tree_first_byte node_first_byte_zero) stk (.inr node)
          make_parse_tree_finish stk
        else if isalpha (first_char tok) then
          let node := make_leaf .SYMBOL tok
          let stk ← @push _ (parse_tree_first_byte node_first_byte_zero) stk (.inr node)
          make_parse_tree_finish stk
        else
          let _ ← free_stack stk
          return .NULL

/-! ## symtab.c -/

/-- One entry of the symbol table; `next` is the tail of the list that holds it. -/
structure symbol_t where
  var_name : String
  val : Int
  deriving DecidableEq, Repr

/-- Embedding of `create_symbol`. -/
def create_symbol (name : String) (val : Int) : symbol_t := ⟨name, val⟩

/-- Embedding of `add_symbol`: the new symbol becomes the head of the table.
The table is the list reachable from the static `symbol_table`; the static
counter `size` is written here and read nowhere, and is left out. -/
def add_symbol (symbol_table : List symbol_t) (name : String) (val : Int) : List symbol_t :=
  create_symbol name val :: symbol_table

/-- Embedding of `lookup_table`: the first entry, from the head, whose name
equals `var` (the parameter `variable` of the source). -/
def lookup_table : List symbol_t → String → Option symbol_t
  | [], _ => none
  | curr :: next, var =>
    if curr.var_name = var then some curr else lookup_table next var

/-- The write `symbol->val = v` through the pointer that `lookup_table(var)`
returned: the first entry named `var` receives `v`. -/
def store_val : List symbol_t → String → Int → List symbol_t
  | [], _, _ => []
  | curr :: next, var, v =>
    if curr.var_name = var then ⟨curr.var_name, v⟩ :: next
    else curr :: store_val next var v

/-! ## parser.c: eval_tree -/

/-- Result of an `int` operation, reduced to the 32-bit two-complement range. -/
def wrap_int (x : Int) : Int := (x + 2147483648) % 4294967296 - 2147483648

/-- Embedding of `isspace` in the C locale. -/
def isspace (c : Char) : Bool := c = Char.ofNat 32 ∨ (9 ≤ c.toNat ∧ c.toNat ≤ 13)

/-- The digit loop of the C library function `atoi`. -/
def atoi_digits (acc : Int) : List Char → Int
  | [] => acc
  | c :: cs => if c.isDigit then atoi_digits (acc * 10 + ((c.toNat : Int) - 48)) cs else acc

/-- The C library function `atoi`: leading white space, an optional sign, then
decimal digits up to the first other character. -/
def atoi (str : String) : Int :=
  match str.data.dropWhile isspace with
  | [] => 0
  | c :: cs =>
    if c = Char.ofNat 45 then wrap_int (- atoi_digits 0 cs)
    else if c = Char.ofNat 43 then wrap_int (atoi_digits 0 cs)
    else wrap_int (atoi_digits 0 (c :: cs))

/-- Embedding of `eval_tree`, with the symbol table it reads and writes passed
in and returned. Both children of an interior node are evaluated before the
`switch` on the operator. The `switch` has no case for MOD_OP or ALT_OP. -/
def eval_tree : tree_node_t → List symbol_t → Except Fault (Int × List symbol_t)
  | .NULL, table => .ok (0, table)
  | .leaf _ none, _ => .error .null_deref
  | .leaf token (some ⟨.INTEGER⟩), table => .ok (atoi token, table)
  | .leaf token (some ⟨.SYMBOL⟩), table =>
    match lookup_table table token with
    | some symbol => .ok (symbol.val, table)
    | none => .ok (0, table)
  | .interior _ op l r, table => do
    let (left, table) ← eval_tree l table
    let (right, table) ← eval_tree r table
    match op with
    | .ADD_OP => return (wrap_int (left + right), table)
    | .SUB_OP => return (wrap_int (left - right), table)
    | .MUL_OP => return (wrap_int (left * right), table)
    | .DIV_OP =>
      if right = 0 then return (0, table)
      else return (wrap_int (Int.tdiv left right), table)
    | .ASSIGN_OP =>
      match l with
      | .NULL => .error .null_deref
      | .leaf _ none => .error .null_deref
      | .leaf ltoken (some ⟨.SYMBOL⟩) =>
        match lookup_table table ltoken with
        | some _ => return (right, store_val table ltoken right)
        | none => return (0, table)
      | .leaf _ (some ⟨.INTEGER⟩) => return (0, table)
      | .interior _ _ _ _ => return (0, table)
    | .Q_OP =>
      match r with
      | .NULL => .error .null_deref
      | .leaf _ none => .error .null_deref
      | .leaf _ (some _) => .error .bad_cast
      | .interior _ _ rl rr =>
        if left ≠ 0 then eval_tree rl table else eval_tree rr table
    | .MOD_OP => return (0, table)
    | .ALT_OP => return (0, table)

/-- The names of the table entries, from the head. -/
def table_names (table : List symbol_t) : List String := table.map (fun s => s.var_name)

/-- Evaluating `t` returns with the table names unchanged, whenever it returns. -/
def keeps_names (t : tree_node_t) : Prop :=
  ∀ table v table', eval_tree t table = .ok (v, table') → table_names table' = table_names table

/-- A result of `parseFuel` that is not a fuel exhaustion and whose stack, when
the call returns, holds at most `n` nodes. -/
def within_fuel (n : Nat) (m : Except Fault (tree_node_t × stack_t String)) : Prop :=
  m ≠ .error .out_of_fuel ∧ ∀ r s, m = .ok (r, s) → s.size ≤ n

/-- Ordinary integer arithmetic, as the specification words it: the value of
one operator applied to two integers, division truncating toward zero; there is
no value for a zero divisor or for a result outside the `int` range. -/
def arith_op (op : op_type_t) (a b : Int) : Option Int :=
  let in_range := fun x : Int => if -2147483648 ≤ x ∧ x < 2147483648 then some x else none
  match op with
  | .ADD_OP => in_range (a + b)
  | .SUB_OP => in_range (a - b)
  | .MUL_OP => in_range (a * b)
  | .DIV_OP => if b = 0 then none else in_range (Int.tdiv a b)
  | _ => none

/-- The value the specification gives to a tree whose leaves are integer
literals (leaves that carry an INTEGER record) and whose interior nodes are
Add, Subtract, Multiply or Divide; `none` for any other tree. -/
def arith_value : tree_node_t → Option Int
  | .NULL => none
  | .leaf token node => if node = some ⟨.INTEGER⟩ then some (atoi token) else none
  | .interior _ op l r =>
    match arith_value l, arith_value r with
    | some a, some b => arith_op op a b
    | _, _ => none

/-! ## parser.c: print_infix -/

/-- Embedding of `print_infix`: `out` is the text already written to stdout,
the result is the text on stdout when the call returns. A leaf is written with
the format `"%s "`, an interior node with `"("`, the left child, `" %s "`, the
right child and `")"`. -/
def print_infix : tree_node_t → String → String
  | .NULL, out => out
  | .leaf token _, out => out ++ token ++ " "
  | .interior token _ left right, out =>
    let out := out ++ "("
    let out := print_infix left out
    let out := out ++ " " ++ token ++ " "
    let out := print_infix right out
    out ++ ")"

/-- The text one call of `print_infix` emits. -/
def infix_text (node : tree_node_t) : String := print_infix node ""

/-- What a call of `parse` can hand back when it was entered with `nodes` under
the token it popped: NULL with a freed stack, or any pointer with a stack that
holds a final part of `nodes`. -/
def good_return (nodes : List String) (r : tree_node_t) (s : stack_t String) : Prop :=
  (s = .dangling ∧ r = .NULL) ∨ ∃ rest, s = .live rest ∧ rest <:+ nodes

/-- Every returning outcome of `m` is a `good_return` for `nodes`. -/
def leaves_rest (nodes : List String) (m : Except Fault (tree_node_t × stack_t String)) : Prop :=
  ∀ r s, m = .ok (r, s) → good_return nodes r s

/-! ## Well-formed trees -/

/-- Well-formed trees: not NULL, every interior node has a non-empty display
token and two well-formed (hence non-NULL) children; a leaf has no children. -/
def well_formed : tree_node_t → Bool
  | .NULL => false
  | .leaf _ _ => true
  | .interior token _ left right =>
    first_char token ≠ Char.ofNat 0 && well_formed left && well_formed right

/-- Every returning outcome of `m` carries NULL or a well-formed tree. -/
def returns_well_formed (m : Except Fault (tree_node_t × stack_t String)) : Prop :=
  ∀ r s, m = .ok (r, s) → r = .NULL ∨ well_formed r = true

/-! ## interp.c: load -/

/-- Embedding of `isalnum` in the C locale. -/
def isalnum (c : Char) : Bool := c.isAlphanum

/-- The part of `load` that handles one line once `sscanf(line, "%s %d", name,
&val)` has read `name` and `val`: a name that starts with a letter and has only
alphanumeric characters is handed to `add_symbol`; otherwise a message is
printed and the process exits. -/
def load_entry (symbol_table : List symbol_t) (name : String) (val : Int) :
    Except Fault (List symbol_t) :=
  if isalpha (first_char name) then
    if name.data.all isalnum then .ok (add_symbol symbol_table name val)
    else .error .exit_failure
  else .error .exit_failure

/-- The rule of the specification for symbol names: the first character is
alphabetic and every following character is alphanumeric. -/
def valid_symbol_name (name : String) : Bool :=
  match name.data with
  | [] => false
  | c :: cs => c.isAlpha && cs.all Char.isAlphanum

/-- The first-byte test of `push` on a pointer to an `int`: the byte at the
lowest address is the low-order byte of the value (least significant byte first,
as on x86); for the value 0 every byte is zero in any byte order. -/
instance : FirstByte Int := ⟨fun n => n % 256 = 0⟩

/-! ## interp.c: eval and prompt -/

/-- Embedding of `isdigit`. -/
def isdigit (c : Char) : Bool := c.isDigit

/-- The character `tok[1]` of a token of at least one character: the terminator
when the token has one character only. -/
def second_char (s : String) : Char :=
  match s.data with
  | _ :: c :: _ => c
  | _ => Char.ofNat 0

/-- The text `printf` writes for `%d`. -/
def fmt_d (n : Int) : String := toString n

/-- The variables of `eval` that live across tokens: the stack of `int`
pointers, the symbol table, the `infix` buffer, the pointer `symbol` (kept as
the name whose first table entry it points to, `none` for NULL) and `name`. -/
structure eval_state where
  stack : stack_t Int
  symbol_table : List symbol_t
  infix_buf : String
  symbol : Option String
  name : Option String
  deriving DecidableEq, Repr

/-- Outcome of the loop body of `eval` for one token: go on with the next token,
or leave `eval` through a `return` with the given value. -/
inductive eval_step where
  | next (st : eval_state)
  | ret (value : Int) (st : eval_state)
  deriving DecidableEq, Repr

/-- The body of the `while (tok != NULL)` loop of `eval` for the token `tok`. -/
def eval_token (tok : String) (st : eval_state) : Except Fault eval_step :=
  if isdigit (first_char tok) ∨
      (first_char tok = Char.ofNat 45 ∧ isdigit (second_char tok)) then do
    let stack ← push st.stack (atoi tok)
    return .next ⟨stack, st.symbol_table, st.infix_buf, st.symbol, st.name⟩
  else if isalpha (first_char tok) then
    match lookup_table st.symbol_table tok with
    | some symbol => do
      let stack ← push st.stack symbol.val
      return .next ⟨stack, st.symbol_table, tok, some tok,
        if st.name = none then some tok else st.name⟩
    | none => do
      let stack ← free_stack st.stack
      return .ret 0 ⟨stack, st.symbol_table, st.infix_buf, none, st.name⟩
  else do
    let second ← top st.stack
    let stack ← pop st.stack
    let first ← top stack
    let stack ← pop stack
    let c := first_char tok
    if c = Char.ofNat 43 then
      let result := wrap_int (first + second)
      let stack ← push stack result
      return .next ⟨stack, st.symbol_table,
        "(" ++ fmt_d first ++ " + " ++ fmt_d second ++ ")", st.symbol, st.name⟩
    else if c = Char.ofNat 45 then
      let result := wrap_int (first - second)
      let stack ← push stack result
      return .next ⟨stack, st.symbol_table,
        "(" ++ fmt_d first ++ " - " ++ fmt_d second ++ ")", st.symbol, st.name⟩
    else if c = Char.ofNat 42 then
      let result := wrap_int (first * second)
      let stack ← push stack result
      return .next ⟨stack, st.symbol_table,
        "(" ++ fmt_d first ++ " * " ++ fmt_d second ++ ")", st.symbol, st.name⟩
    else if c = Char.ofNat 47 then
      if second = 0 then
        let stack ← free_stack stack
        return .ret 0 ⟨stack, st.symbol_table, st.infix_buf, st.symbol, st.name⟩
      else
        let result := wrap_int (Int.tdiv first second)
        let stack ← push stack result
        return .next ⟨stack, st.symbol_table,
          "(" ++ fmt_d first ++ " / " ++ fmt_d second ++ ")", st.symbol, st.name⟩
    else if c = Char.ofNat 61 then
      match st.symbol with
      | some symbol =>
        let table := store_val st.symbol_table symbol second
        let shown := st.name.getD "(null)"
        let result := second
        let stack ← push stack result
        return .next ⟨stack, table, "(" ++ shown ++ "=(" ++ shown ++ "+1))", st.symbol, st.name⟩
      | none =>
        let stack ← free_stack stack
        return .ret 0 ⟨stack, st.symbol_table, st.infix_buf, st.symbol, st.name⟩
    else
      let stack ← free_stack stack
      return .ret 0 ⟨stack, st.symbol_table, st.infix_buf, st.symbol, st.name⟩

/-- The loop of `eval` over the tokens `strtok` delivers, followed by the
statements after the loop: `result = *(int *)top(stack)`, `free_stack(stack)`,
`return result`. The value is paired with the symbol table and the `infix`
buffer as the call leaves them. -/
def eval_tokens : List String → eval_state → Except Fault (Int × List symbol_t × String)
  | [], st => do
    let result ← top st.stack
    let _ ← free_stack st.stack
    return (result, st.symbol_table, st.infix_buf)
  | tok :: toks, st => do
    match (← eval_token tok st) with
    | .next st => eval_tokens toks st
    | .ret value st => return (value, st.symbol_table, st.infix_buf)

/-- Embedding of `eval` of interp.c; `infix_buf` is what the caller's buffer
holds on entry. -/
def eval (symbol_table : List symbol_t) (exp : String) (infix_buf : String) :
    Except Fault (Int × List symbol_t × String) :=
  eval_tokens (strtok_all [] exp.data) ⟨make_stack, symbol_table, infix_buf, none, none⟩

/-- The call `strtok(line, "\n")` of `prompt`: the first maximal run of
characters other than the newline, NULL (`none`) when there is none. -/
def strtok_newline (line : List Char) : Option String :=
  match line.dropWhile (fun c => c = Char.ofNat 10) with
  | [] => none
  | c :: cs => some (String.mk ((c :: cs).takeWhile (fun c => c ≠ Char.ofNat 10)))

/-- One round of the loop of `prompt` for the line `fgets` has read: the line is
cut at the first `#`, `strtok` takes its first run of characters up to a
newline, and a non-empty run is handed to `eval`; a nonzero result is printed as
`"%s = %d\n"`. The result is the symbol table and the text printed. `infix_buf`
is what the uninitialised local buffer `infix` happens to hold. -/
def prompt_line (symbol_table : List symbol_t) (line : String) (infix_buf : String) :
    Except Fault (List symbol_t × String) :=
  let cut := line.data.takeWhile (fun c => c ≠ Char.ofNat 35)
  match strtok_newline cut with
  | some trim =>
    if trim.data ≠ [] then do
      let (result, table, infix_buf) ← eval symbol_table trim infix_buf
      if result ≠ 0 then return (table, infix_buf ++ " = " ++ fmt_d result ++ "\n")
      else return (table, "")
    else return (symbol_table, "")
  | none => return (symbol_table, "")

/-! ## Trees of the evaluation and round-trip statements -/

/-- Trees `eval_tree` can walk that contain no assignment: no ASSIGN_OP node,
every leaf carries its leaf record, and the right child of a Q_OP node is an
interior node (the one whose children the Q_OP case reads). -/
def assignment_free : tree_node_t → Bool
  | .NULL => true
  | .leaf _ node => node.isSome
  | .interior _ op left right =>
    op ≠ .ASSIGN_OP && assignment_free left && assignment_free right &&
      (op ≠ .Q_OP || match right with
        | .interior _ _ _ _ => true
        | _ => false)

/-- Evaluating `t` returns a value and leaves the table as it is, for every table,
provided `t` is assignment-free. -/
def evaluates_purely (t : tree_node_t) : Prop :=
  assignment_free t = true → ∀ table, ∃ v, eval_tree t table = .ok (v, table)

/-- A run of `add_symbol` calls, one for each name and value of `adds` in order,
starting from the table `symbol_table`. -/
def add_symbols (symbol_table : List symbol_t) : List (String × Int) → List symbol_t
  | [] => symbol_table
  | (name, val) :: adds => add_symbols (add_symbol symbol_table name val) adds

/-! ## Theorems -/

theorem first_char_ne_zero_of_leaf_token {tok : String} (h : is_leaf_token tok = true) :
    first_char tok ≠ Char.ofNat 0 := by
  intro h0
  unfold is_leaf_token at h
  rcases tok with ⟨l⟩
  cases l with
  | nil => simp [is_num, isalpha, first_char] at h
  | cons c cs =>
    simp only [first_char, List.headD_cons] at h0
    subst h0
    simp [is_num, isalpha, first_char, is_num_loop] at h

theorem push_live {tok : String} (h : first_char tok ≠ Char.ofNat 0) (nodes : List String) :
    push (.live nodes) tok = .ok (.live (tok :: nodes)) := by
  simp [push, FirstByte.first_byte_zero, h]

theorem parseFuel_leaf {tok : String} (h : is_leaf_token tok = true) (fuel : Nat)
    (rest : List String) :
    parseFuel (fuel + 1) (.live (tok :: rest)) = .ok (leaf_of tok, .live rest) := by
  have h0 := first_char_ne_zero_of_leaf_token h
  unfold is_leaf_token at h
  unfold parseFuel
  by_cases hn : is_num tok = true
  · simp [empty_stack, top, pop, bind, Except.bind, pure, Except.pure, h0, hn, leaf_of]
  · simp [hn] at h
    simp [empty_stack, top, pop, bind, Except.bind, pure, Except.pure, h0, hn, leaf_of, h]

theorem binary_token_cases {op : String} (h : is_binary_token op = true) :
    op = "+" ∨ op = "*" ∨ op = "/" ∨ op = "%" ∨ op = "=" := by
  simp only [is_binary_token, is_operator, Bool.and_eq_true, Bool.not_eq_true',
    decide_eq_true_eq, Bool.decide_or, Bool.or_eq_true] at h
  obtain ⟨⟨hn, -⟩, ho⟩ := h
  rcases ho with h | h | h | h | h | h
  · exact Or.inl h
  · subst h; exact absurd hn (by decide)
  · exact Or.inr (Or.inl h)
  · exact Or.inr (Or.inr (Or.inl h))
  · exact Or.inr (Or.inr (Or.inr (Or.inl h)))
  · exact Or.inr (Or.inr (Or.inr (Or.inr h)))

theorem leaf_of_ne_NULL (t : String) : leaf_of t ≠ .NULL := by
  unfold leaf_of make_leaf; split <;> simp

theorem parseFuel_binary_step {op a b : String} {kind : op_type_t}
    (h0 : first_char op ≠ Char.ofNat 0) (h1 : is_num op = false)
    (h2 : isalpha (first_char op) = false) (h3 : is_operator op = true)
    (h4 : select_op op = some kind)
    (ha : is_leaf_token a = true) (hb : is_leaf_token b = true) (fuel : Nat) (rest : List String) :
    parseFuel (fuel + 2) (.live (op :: b :: a :: rest))
      = .ok (.interior op kind (leaf_of a) (leaf_of b), .live rest) := by
  rw [parseFuel]
  simp [empty_stack, top, pop, bind, Except.bind, pure, Except.pure, fewer_than_two,
    parseFuel_leaf ha, parseFuel_leaf hb, make_interior, leaf_of_ne_NULL, node_unusable,
    h0, h1, h2, h3, h4]

theorem parseFuel_binary {op a b : String} (hop : is_binary_token op = true)
    (ha : is_leaf_token a = true) (hb : is_leaf_token b = true) (fuel : Nat) (rest : List String) :
    ∃ kind, select_op op = some kind ∧
      parseFuel (fuel + 2) (.live (op :: b :: a :: rest))
        = .ok (.interior op kind (leaf_of a) (leaf_of b), .live rest) := by
  rcases binary_token_cases hop with h | h | h | h | h <;> subst h
  · exact ⟨.ADD_OP, by decide, parseFuel_binary_step (by decide) (by decide) (by decide)
      (by decide) (by decide) ha hb fuel rest⟩
  · exact ⟨.MUL_OP, by decide, parseFuel_binary_step (by decide) (by decide) (by decide)
      (by decide) (by decide) ha hb fuel rest⟩
  · exact ⟨.DIV_OP, by decide, parseFuel_binary_step (by decide) (by decide) (by decide)
      (by decide) (by decide) ha hb fuel rest⟩
  · exact ⟨.MOD_OP, by decide, parseFuel_binary_step (by decide) (by decide) (by decide)
      (by decide) (by decide) ha hb fuel rest⟩
  · exact ⟨.ASSIGN_OP, by decide, parseFuel_binary_step (by decide) (by decide) (by decide)
      (by decide) (by decide) ha hb fuel rest⟩

theorem push_all_three {a b c : String} (ha : first_char a ≠ Char.ofNat 0)
    (hb : first_char b ≠ Char.ofNat 0) (hc : first_char c ≠ Char.ofNat 0) :
    push_all make_stack [a, b, c] = .ok (.live [c, b, a]) := by
  simp [push_all, make_stack, push_live, ha, hb, hc, bind, Except.bind]

theorem first_char_ne_zero_of_binary_token {op : String} (h : is_binary_token op = true) :
    first_char op ≠ Char.ofNat 0 := by
  rcases binary_token_cases h with h | h | h | h | h <;> subst h <;> decide

/-- C1. Operand order of `parse`: with leaf tokens `a`, `b` and a token `op` of
the operator branch pushed in that order, `parse` returns an interior node with
display token `op`, the operator kind selected for `op`, the leaf for `a` as
left child and the leaf for `b` as right child, and the stack is left empty. -/
theorem parse_operand_order (a b op : String) (ha : is_leaf_token a = true)
    (hb : is_leaf_token b = true) (hop : is_binary_token op = true) :
    ∃ kind, select_op op = some kind ∧
      (push_all make_stack [a, b, op] >>= parse)
        = .ok (.interior op kind (leaf_of a) (leaf_of b), .live []) := by
  obtain ⟨kind, hk, hp⟩ := parseFuel_binary hop ha hb 2 []
  refine ⟨kind, hk, ?_⟩
  rw [push_all_three (first_char_ne_zero_of_leaf_token ha) (first_char_ne_zero_of_leaf_token hb)
    (first_char_ne_zero_of_binary_token hop)]
  exact hp

/-- Witness of C1: pushing "3", "4", "+" gives Add with left 3 and right 4. -/
theorem parse_operand_order_witness :
    is_leaf_token "3" = true ∧ is_leaf_token "4" = true ∧ is_binary_token "+" = true ∧
    (∃ kind, select_op "+" = some kind ∧
      (push_all make_stack ["3", "4", "+"] >>= parse)
        = .ok (.interior "+" kind (leaf_of "3") (leaf_of "4"), .live [])) ∧
    (push_all make_stack ["3", "4", "+"] >>= parse)
      = .ok (.interior "+" .ADD_OP (.leaf "3" none) (.leaf "4" none), .live []) :=
  ⟨by decide, by decide, by decide,
    parse_operand_order "3" "4" "+" (by decide) (by decide) (by decide), by decide⟩

theorem push_all_four {a b c d : String} (ha : first_char a ≠ Char.ofNat 0)
    (hb : first_char b ≠ Char.ofNat 0) (hc : first_char c ≠ Char.ofNat 0)
    (hd : first_char d ≠ Char.ofNat 0) :
    push_all make_stack [a, b, c, d] = .ok (.live [d, c, b, a]) := by
  simp [push_all, make_stack, push_live, ha, hb, hc, hd, bind, Except.bind]

theorem parseFuel_ternary {f t c : String} (hf : is_leaf_token f = true)
    (ht : is_leaf_token t = true) (hc : is_leaf_token c = true) (fuel : Nat)
    (rest : List String) :
    parseFuel (fuel + 2) (.live ("?" :: c :: t :: f :: rest))
      = .ok (.interior "?" .Q_OP (leaf_of c) (.interior ":" .ALT_OP (leaf_of t) (leaf_of f)),
          .live rest) := by
  have h0 : first_char "?" ≠ Char.ofNat 0 := by decide
  have h1 : is_num "?" = false := by decide
  have h2 : isalpha (first_char "?") = false := by decide
  have h3 : is_operator "?" = false := by decide
  have h5 : first_char ":" ≠ Char.ofNat 0 := by decide
  rw [parseFuel]
  simp [empty_stack, top, pop, bind, Except.bind, pure, Except.pure,
    parseFuel_leaf hf, parseFuel_leaf ht, parseFuel_leaf hc, make_interior, leaf_of_ne_NULL,
    h0, h1, h2, h3, h5]

theorem leaf_of_eq (tok : String) : leaf_of tok = .leaf tok none := by
  unfold leaf_of make_leaf
  split <;> rfl

/-- C2. Ternary construction by `parse`: with leaf tokens `f`, `t`, `c` and then
"?" pushed in that order, `parse` returns a Q_OP node with display token "?"
whose left child is the leaf with token `c` and whose right child is an ALT_OP
node with display token ":", left child the leaf with token `t` and right child
the leaf with token `f`; the stack is empty afterwards. Each of these leaves is
the node `parse` builds with `make_leaf` for that token. -/
theorem parse_ternary (f t c : String) (hf : is_leaf_token f = true)
    (ht : is_leaf_token t = true) (hc : is_leaf_token c = true) :
    (push_all make_stack [f, t, c, "?"] >>= parse)
      = .ok (.interior "?" .Q_OP (.leaf c none)
          (.interior ":" .ALT_OP (.leaf t none) (.leaf f none)), .live []) ∧
    leaf_of c = .leaf c none ∧ leaf_of t = .leaf t none ∧ leaf_of f = .leaf f none := by
  refine ⟨?_, leaf_of_eq c, leaf_of_eq t, leaf_of_eq f⟩
  rw [push_all_four (first_char_ne_zero_of_leaf_token hf) (first_char_ne_zero_of_leaf_token ht)
    (first_char_ne_zero_of_leaf_token hc) (by decide)]
  have h := parseFuel_ternary hf ht hc 3 []
  rw [leaf_of_eq, leaf_of_eq, leaf_of_eq] at h
  exact h

/-- Witness of C2: pushing "1", "3", "5", "?" yields a Q_OP root with the leaf 5
as condition and an ALT_OP node over the leaves 3 and 1. -/
theorem parse_ternary_witness :
    is_leaf_token "1" = true ∧ is_leaf_token "3" = true ∧ is_leaf_token "5" = true ∧
    ((push_all make_stack ["1", "3", "5", "?"] >>= parse)
      = .ok (.interior "?" .Q_OP (.leaf "5" none)
          (.interior ":" .ALT_OP (.leaf "3" none) (.leaf "1" none)), .live []) ∧
    leaf_of "5" = .leaf "5" none ∧ leaf_of "3" = .leaf "3" none ∧
      leaf_of "1" = .leaf "1" none) :=
  ⟨by decide, by decide, by decide, parse_ternary "1" "3" "5" (by decide) (by decide) (by decide)⟩

/-- C3. The lone token "-" is not treated as the subtract operator: `is_num`
accepts it (a minus sign followed by no digit), so with "3", "4", "-" pushed
`parse` returns a leaf with token "-" and leaves "4" and "3" on the stack. -/
theorem parse_minus_is_leaf :
    is_num "-" = true ∧
    (push_all make_stack ["3", "4", "-"] >>= parse)
      = .ok (make_leaf .INTEGER "-", .live ["4", "3"]) ∧
    (∀ l r, (push_all make_stack ["3", "4", "-"] >>= parse)
      ≠ .ok (.interior "-" .SUB_OP l r, .live [])) := by
  refine ⟨by decide, by decide, ?_⟩
  intro l r h
  have h2 : (push_all make_stack ["3", "4", "-"] >>= parse)
      = .ok (make_leaf .INTEGER "-", .live ["4", "3"]) := by decide
  rw [h2] at h
  simp [make_leaf] at h

/-- C4. The leaf returned by `parse` for the single token "3" (and for "x") has
a NULL `node` field: no leaf record recording INTEGER (or SYMBOL) is attached. -/
theorem parse_leaf_record_missing :
    (push_all make_stack ["3"] >>= parse) = .ok (.leaf "3" none, .live []) ∧
    (push_all make_stack ["x"] >>= parse) = .ok (.leaf "x" none, .live []) := by
  constructor <;> decide

/-- C5. On the postfix expression "5 3 +" `make_parse_tree` returns NULL, not
an Add node: it pops the last token "+", which is neither a number nor starts
with a letter, and takes its unknown-token exit without ever calling `parse`. -/
theorem make_parse_tree_sum_is_NULL (node_first_byte_zero : tree_node_t → Bool) :
    make_parse_tree node_first_byte_zero "5 3 +" = .ok .NULL := by
  rfl

/-- C6. Evaluating the tree parsed from the tokens "5", "3", "+" does not give
8: the leaves built by `make_leaf` carry no leaf record, and `eval_tree` stops
on the NULL record of the first leaf it reaches. -/
theorem eval_tree_parsed_sum_faults (table : List symbol_t) :
    ((push_all make_stack ["5", "3", "+"] >>= parse) >>= fun r => eval_tree r.1 table)
      = .error .null_deref := by
  rfl

/-- C7. No short circuit in `eval_tree`: with x = 1 and condition 0 the
assignment x = 5 placed in the true branch is executed (x ends as 5 while the
value 7 of the false branch is returned), and with a nonzero condition the
selected branch x = x + 1 is executed twice (x ends as 3). -/
theorem eval_tree_ternary_evaluates_both :
    eval_tree
      (.interior "?" .Q_OP (.leaf "0" (some ⟨.INTEGER⟩))
        (.interior ":" .ALT_OP
          (.interior "=" .ASSIGN_OP (.leaf "x" (some ⟨.SYMBOL⟩)) (.leaf "5" (some ⟨.INTEGER⟩)))
          (.leaf "7" (some ⟨.INTEGER⟩))))
      [⟨"x", 1⟩] = .ok (7, [⟨"x", 5⟩]) ∧
    eval_tree
      (.interior "?" .Q_OP (.leaf "1" (some ⟨.INTEGER⟩))
        (.interior ":" .ALT_OP
          (.interior "=" .ASSIGN_OP (.leaf "x" (some ⟨.SYMBOL⟩))
            (.interior "+" .ADD_OP (.leaf "x" (some ⟨.SYMBOL⟩)) (.leaf "1" (some ⟨.INTEGER⟩))))
          (.leaf "0" (some ⟨.INTEGER⟩))))
      [⟨"x", 1⟩] = .ok (3, [⟨"x", 3⟩]) := by
  constructor <;> decide

/-- Counterexample to C8: the tree of "5 0 /" evaluates to the integer 0, the
very result of evaluating the tree of "5 5 -". -/
theorem eval_tree_div_zero_is_value_zero :
    eval_tree (.interior "/" .DIV_OP (.leaf "5" (some ⟨.INTEGER⟩)) (.leaf "0" (some ⟨.INTEGER⟩))) []
      = .ok (0, []) ∧
    eval_tree (.interior "/" .DIV_OP (.leaf "5" (some ⟨.INTEGER⟩)) (.leaf "0" (some ⟨.INTEGER⟩))) []
      = eval_tree
          (.interior "-" .SUB_OP (.leaf "5" (some ⟨.INTEGER⟩)) (.leaf "5" (some ⟨.INTEGER⟩))) [] := by
  constructor <;> decide

/-- C8 as amended. For every Divide node whose children evaluate without a
fault and whose right child evaluates to 0, `eval_tree` performs no division and
returns the integer 0, with the table as the children left it. -/
theorem eval_tree_div_zero (tok : String) (l r : tree_node_t) (table t1 t2 : List symbol_t)
    (a : Int) (hl : eval_tree l table = .ok (a, t1)) (hr : eval_tree r t1 = .ok (0, t2)) :
    eval_tree (.interior tok .DIV_OP l r) table = .ok (0, t2) := by
  simp [eval_tree, hl, hr, bind, Except.bind, pure, Except.pure]

/-- Witness of C8 as amended: the tree of "5 0 /". -/
theorem eval_tree_div_zero_witness :
    eval_tree (.leaf "5" (some ⟨.INTEGER⟩)) [] = .ok (5, []) ∧
    eval_tree (.leaf "0" (some ⟨.INTEGER⟩)) [] = .ok (0, []) ∧
    eval_tree (.interior "/" .DIV_OP (.leaf "5" (some ⟨.INTEGER⟩)) (.leaf "0" (some ⟨.INTEGER⟩))) []
      = .ok (0, []) :=
  ⟨by decide, by decide,
    eval_tree_div_zero "/" _ _ [] [] [] 5 (by decide) (by decide)⟩

theorem lookup_store_val (table : List symbol_t) (n : String) (v : Int) (e : symbol_t)
    (h : lookup_table table n = some e) :
    lookup_table (store_val table n v) n = some ⟨n, v⟩ := by
  induction table with
  | nil => simp [lookup_table] at h
  | cons curr next ih =>
    by_cases hc : curr.var_name = n
    · simp [store_val, lookup_table, hc]
    · simp [lookup_table, hc] at h
      simp [store_val, lookup_table, hc, ih h]

theorem store_val_names (table : List symbol_t) (n : String) (v : Int) :
    table_names (store_val table n v) = table_names table := by
  induction table with
  | nil => rfl
  | cons curr next ih =>
    by_cases hc : curr.var_name = n
    · simp [store_val, table_names, hc]
    · simp only [table_names] at ih
      simp [store_val, table_names, hc, ih]

theorem lookup_none_iff (table : List symbol_t) (n : String) :
    lookup_table table n = none ↔ n ∉ table_names table := by
  induction table with
  | nil => simp [lookup_table, table_names]
  | cons curr next ih =>
    by_cases hc : curr.var_name = n
    · simp [lookup_table, table_names, hc]
    · simp only [table_names] at ih
      simp [lookup_table, table_names, hc, ih, Ne.symm hc]

/-- C9. Assignment to a defined variable: when `n` is in the table and the
right subtree `r` evaluates to `v` without changing the table, evaluating
Assign(Symbol n, r) returns `v` and afterwards `lookup_table(n)` yields an
entry named `n` whose value is `v`. -/
theorem eval_tree_assign_defined (tok n : String) (r : tree_node_t) (table : List symbol_t)
    (e : symbol_t) (v : Int) (hn : lookup_table table n = some e)
    (hr : eval_tree r table = .ok (v, table)) :
    ∃ table', eval_tree (.interior tok .ASSIGN_OP (.leaf n (some ⟨.SYMBOL⟩)) r) table
        = .ok (v, table') ∧
      lookup_table table' n = some ⟨n, v⟩ := by
  refine ⟨store_val table n v, ?_, lookup_store_val table n v e hn⟩
  simp [eval_tree, hn, hr, bind, Except.bind, pure, Except.pure]

/-- Witness of C9: define x = 1, evaluate the tree of "x 5 =", then lookup x gives 5. -/
theorem eval_tree_assign_defined_witness :
    lookup_table (add_symbol [] "x" 1) "x" = some ⟨"x", 1⟩ ∧
    eval_tree (.leaf "5" (some ⟨.INTEGER⟩)) (add_symbol [] "x" 1) = .ok (5, add_symbol [] "x" 1) ∧
    ∃ table', eval_tree
        (.interior "=" .ASSIGN_OP (.leaf "x" (some ⟨.SYMBOL⟩)) (.leaf "5" (some ⟨.INTEGER⟩)))
        (add_symbol [] "x" 1) = .ok (5, table') ∧
      lookup_table table' "x" = some ⟨"x", 5⟩ :=
  ⟨by decide, by decide,
    eval_tree_assign_defined "=" "x" _ (add_symbol [] "x" 1) ⟨"x", 1⟩ 5 (by decide) (by decide)⟩

theorem keeps_names_interior (tok : String) (op : op_type_t) (l r : tree_node_t)
    (hl : keeps_names l) (hr : keeps_names r)
    (hrr : ∀ rtok rop rl rr, r = .interior rtok rop rl rr → keeps_names rl ∧ keeps_names rr) :
    keeps_names (.interior tok op l r) := by
  intro table v table' h
  rw [eval_tree] at h
  cases h1 : eval_tree l table with
  | error e => simp [h1, bind, Except.bind] at h
  | ok p1 =>
    obtain ⟨a, t1⟩ := p1
    have n1 := hl table a t1 h1
    cases h2 : eval_tree r t1 with
    | error e => simp [h1, h2, bind, Except.bind] at h
    | ok p2 =>
      obtain ⟨b, t2⟩ := p2
      have n2 := hr t1 b t2 h2
      simp only [h1, h2, bind, Except.bind, pure, Except.pure] at h
      have n12 : table_names t2 = table_names table := n2.trans n1
      cases op
      case Q_OP =>
        cases r with
        | NULL => simp at h
        | leaf t n => cases n <;> simp at h
        | interior rtok rop rl rr =>
          obtain ⟨hrl, hrrr⟩ := hrr _ _ _ _ rfl
          simp only [] at h
          split at h
          · exact (hrl _ _ _ h).trans n12
          · exact (hrrr _ _ _ h).trans n12
      case ASSIGN_OP =>
        simp only [] at h
        split at h
        · simp at h
        · simp at h
        · split at h
          · simp only [Except.ok.injEq, Prod.mk.injEq] at h
            obtain ⟨-, rfl⟩ := h
            rw [store_val_names]; exact n12
          · simp only [Except.ok.injEq, Prod.mk.injEq] at h
            obtain ⟨-, rfl⟩ := h
            exact n12
        · simp only [Except.ok.injEq, Prod.mk.injEq] at h
          obtain ⟨-, rfl⟩ := h
          exact n12
        · simp only [Except.ok.injEq, Prod.mk.injEq] at h
          obtain ⟨-, rfl⟩ := h
          exact n12
      case DIV_OP =>
        simp only [] at h
        split at h <;>
        · simp only [Except.ok.injEq, Prod.mk.injEq] at h
          obtain ⟨-, rfl⟩ := h
          exact n12
      all_goals
        simp only [Except.ok.injEq, Prod.mk.injEq] at h
        obtain ⟨-, rfl⟩ := h
        exact n12

theorem keeps_names_all (t : tree_node_t) :
    keeps_names t ∧
      ∀ tok op l r, t = .interior tok op l r → keeps_names l ∧ keeps_names r := by
  induction t with
  | NULL =>
    refine ⟨?_, by intro _ _ _ _ h; cases h⟩
    intro table v table' h
    simp only [eval_tree, Except.ok.injEq, Prod.mk.injEq] at h
    rw [h.2]
  | leaf token node =>
    refine ⟨?_, by intro _ _ _ _ h; cases h⟩
    intro table v table' h
    rcases node with _ | ⟨⟨_ | _⟩⟩
    · simp [eval_tree] at h
    · simp only [eval_tree, Except.ok.injEq, Prod.mk.injEq] at h
      rw [h.2]
    · simp only [eval_tree] at h
      split at h <;>
      · simp only [Except.ok.injEq, Prod.mk.injEq] at h
        rw [h.2]
  | interior token op l r ihl ihr =>
    refine ⟨keeps_names_interior token op l r ihl.1 ihr.1 ihr.2, ?_⟩
    intro _ _ _ _ h
    cases h
    exact ⟨ihl.1, ihr.1⟩

/-- Evaluation never adds or removes a table entry: the names are the same, in
the same order, after every call that returns. -/
theorem eval_tree_names (t : tree_node_t) (table table' : List symbol_t) (v : Int)
    (h : eval_tree t table = .ok (v, table')) : table_names table' = table_names table :=
  (keeps_names_all t).1 table v table' h

/-- Counterexample to C10: with an empty table the leaf Symbol y evaluates to
the integer 0, the very result of evaluating the literal 0, and so does the
assignment of 5 to y. -/
theorem eval_tree_undefined_is_value_zero :
    lookup_table [] "y" = none ∧
    eval_tree (.leaf "y" (some ⟨.SYMBOL⟩)) [] = .ok (0, []) ∧
    eval_tree (.leaf "y" (some ⟨.SYMBOL⟩)) [] = eval_tree (.leaf "0" (some ⟨.INTEGER⟩)) [] ∧
    eval_tree (.interior "=" .ASSIGN_OP (.leaf "y" (some ⟨.SYMBOL⟩)) (.leaf "5" (some ⟨.INTEGER⟩))) []
      = .ok (0, []) := by
  refine ⟨by decide, by decide, by decide, by decide⟩

/-- C10 as amended. For every name `n` absent from the table, evaluating the
leaf Symbol n returns the integer 0 and leaves the table as it is, and
evaluating Assign(Symbol n, r), for any `r` whose evaluation returns, returns
the integer 0 with the table as `r` left it, in which `n` is still absent. -/
theorem eval_tree_undefined (n : String) (table : List symbol_t)
    (hn : lookup_table table n = none) :
    eval_tree (.leaf n (some ⟨.SYMBOL⟩)) table = .ok (0, table) ∧
    ∀ (tok : String) (r : tree_node_t) (v : Int) (table' : List symbol_t),
      eval_tree r table = .ok (v, table') →
        eval_tree (.interior tok .ASSIGN_OP (.leaf n (some ⟨.SYMBOL⟩)) r) table = .ok (0, table') ∧
        lookup_table table' n = none := by
  constructor
  · simp [eval_tree, hn]
  · intro tok r v table' hr
    have hn' : lookup_table table' n = none := by
      rw [lookup_none_iff, (keeps_names_all r).1 table v table' hr, ← lookup_none_iff]
      exact hn
    refine ⟨?_, hn'⟩
    simp [eval_tree, hn, hr, hn', bind, Except.bind, pure, Except.pure]

/-- Witness of C10 as amended: the name y in the table that defines only x. -/
theorem eval_tree_undefined_witness :
    lookup_table [⟨"x", 1⟩] "y" = none ∧
    eval_tree (.leaf "y" (some ⟨.SYMBOL⟩)) [⟨"x", 1⟩] = .ok (0, [⟨"x", 1⟩]) ∧
    eval_tree (.interior "=" .ASSIGN_OP (.leaf "y" (some ⟨.SYMBOL⟩)) (.leaf "5" (some ⟨.INTEGER⟩)))
      [⟨"x", 1⟩] = .ok (0, [⟨"x", 1⟩]) :=
  ⟨by decide, (eval_tree_undefined "y" [⟨"x", 1⟩] (by decide)).1,
    ((eval_tree_undefined "y" [⟨"x", 1⟩] (by decide)).2 "=" _ 5 [⟨"x", 1⟩] (by decide)).1⟩

theorem ok_bind {ε α β : Type} (a : α) (k : α → Except ε β) :
    (Except.ok a >>= k) = k a := rfl

theorem error_bind {ε α β : Type} (e : ε) (k : α → Except ε β) :
    ((Except.error e : Except ε α) >>= k) = .error e := rfl

theorem within_fuel_ok {n : Nat} {r : tree_node_t} {s : stack_t String} (h : s.size ≤ n) :
    within_fuel n (.ok (r, s)) := by
  refine ⟨by simp, ?_⟩
  intro r' s' h'
  simp only [Except.ok.injEq, Prod.mk.injEq] at h'
  rw [← h'.2]; exact h

theorem within_fuel_bind {n : Nat} {m : Except Fault (tree_node_t × stack_t String)}
    {k : tree_node_t × stack_t String → Except Fault (tree_node_t × stack_t String)}
    (hm : within_fuel n m) (hk : ∀ r s, s.size ≤ n → within_fuel n (k (r, s))) :
    within_fuel n (m >>= k) := by
  cases m with
  | error e =>
    rw [error_bind]
    exact ⟨hm.1, by intro _ _ h; cases h⟩
  | ok p =>
    obtain ⟨r, s⟩ := p
    rw [ok_bind]
    exact hk r s (hm.2 r s rfl)

theorem within_fuel_free {n : Nat} {s : stack_t String} (h : s.size ≤ n) :
    within_fuel n (free_stack s >>= fun s' => pure (tree_node_t.NULL, s')) := by
  cases s with
  | dangling => exact ⟨by simp [free_stack, error_bind], by intro _ _ h; cases h⟩
  | live nodes =>
    match nodes, h with
    | [], _ => exact ⟨by simp [free_stack, error_bind], by intro _ _ h; cases h⟩
    | [d], h => simp only [free_stack, ok_bind]; exact within_fuel_ok h
    | _ :: _ :: _, _ =>
      simp only [free_stack, ok_bind]; exact within_fuel_ok (by simp [stack_t.size])

theorem within_fuel_mono {n m : Nat} {x : Except Fault (tree_node_t × stack_t String)}
    (h : within_fuel n x) (hnm : n ≤ m) : within_fuel m x :=
  ⟨h.1, fun r s hx => le_trans (h.2 r s hx) hnm⟩

theorem fewer_than_two_live {α : Type} (nodes : List α) :
    fewer_than_two (.live nodes) = .ok (decide (nodes.length < 2)) := by
  match nodes with
  | [] => rfl
  | [_] => rfl
  | _ :: _ :: _ => simp [fewer_than_two]

theorem parseFuel_within_fuel (fuel : Nat) :
    ∀ stack : stack_t String, stack.size < fuel → within_fuel stack.size (parseFuel fuel stack) := by
  induction fuel with
  | zero => intro stack h; omega
  | succ fuel ih =>
    intro stack hs
    cases stack with
    | dangling =>
      exact ⟨by simp [parseFuel, empty_stack, top, error_bind], by
        intro _ _ h; simp [parseFuel, empty_stack, top, error_bind] at h⟩
    | live nodes =>
      cases nodes with
      | nil =>
        rw [parseFuel]
        simp only [empty_stack, if_true]
        exact within_fuel_ok (le_refl _)
      | cons tok rest =>
        have hrest : rest.length < fuel := by
          simp only [stack_t.size, List.length_cons] at hs; omega
        have key : ∀ s : stack_t String, s.size ≤ rest.length →
            within_fuel rest.length (parseFuel fuel s) :=
          fun s hs => within_fuel_mono (ih s (by omega)) hs
        have hlive : (stack_t.live rest).size ≤ rest.length := le_refl _
        refine within_fuel_mono (n := rest.length) ?_ (by simp [stack_t.size])
        rw [parseFuel]
        simp only [empty_stack, top, pop, ok_bind, Bool.false_eq_true, if_false,
          fewer_than_two_live]
        split
        · exact within_fuel_free hlive
        split
        · exact within_fuel_ok hlive
        split
        · exact within_fuel_ok hlive
        split
        · split
          · exact within_fuel_free hlive
          · refine within_fuel_bind (key _ hlive) (fun r1 s1 h1 => ?_)
            refine within_fuel_bind (key _ h1) (fun r2 s2 h2 => ?_)
            split
            · exact within_fuel_free h2
            · split
              · exact within_fuel_free h2
              · exact within_fuel_ok h2
        split
        · refine within_fuel_bind (key _ hlive) (fun r1 s1 h1 => ?_)
          split
          · exact within_fuel_ok h1
          refine within_fuel_bind (key _ h1) (fun r2 s2 h2 => ?_)
          split
          · exact within_fuel_ok h2
          refine within_fuel_bind (key _ h2) (fun r3 s3 h3 => ?_)
          split
          · exact within_fuel_ok h3
          split
          · exact within_fuel_free h3
          · exact within_fuel_ok h3
        split
        · refine within_fuel_bind (key _ hlive) (fun r1 s1 h1 => ?_)
          refine within_fuel_bind (key _ h1) (fun r2 s2 h2 => ?_)
          split
          · exact within_fuel_ok h2
          · exact within_fuel_ok h2
        · exact within_fuel_free hlive

/-- The depth bound of `parse` is never reached: `parse` does not stop for lack
of fuel, and a call that returns leaves at most as many nodes as it found. -/
theorem parse_fuel_enough (stack : stack_t String) :
    parse stack ≠ .error .out_of_fuel ∧
      ∀ r s, parse stack = .ok (r, s) → s.size ≤ stack.size :=
  parseFuel_within_fuel (stack.size + 1) stack (Nat.lt_succ_self _)

theorem wrap_int_of_in_range (x : Int) (h1 : -2147483648 ≤ x) (h2 : x < 2147483648) :
    wrap_int x = x := by
  unfold wrap_int; omega

theorem arith_op_eval (op : op_type_t) (a b v : Int) (h : arith_op op a b = some v)
    (table : List symbol_t) (tok : String) (l r : tree_node_t)
    (hl : eval_tree l table = .ok (a, table)) (hr : eval_tree r table = .ok (b, table)) :
    eval_tree (.interior tok op l r) table = .ok (v, table) := by
  cases op <;> simp only [arith_op] at h
  case DIV_OP =>
    split at h
    · cases h
    · rename_i hb
      split at h
      · rename_i hx
        cases h
        simp [eval_tree, hl, hr, bind, Except.bind, pure, Except.pure, hb,
          wrap_int_of_in_range _ hx.1 hx.2]
      · cases h
  case ADD_OP =>
    split at h
    · rename_i hx
      cases h
      simp [eval_tree, hl, hr, bind, Except.bind, pure, Except.pure,
        wrap_int_of_in_range _ hx.1 hx.2]
    · cases h
  case SUB_OP =>
    split at h
    · rename_i hx
      cases h
      simp [eval_tree, hl, hr, bind, Except.bind, pure, Except.pure,
        wrap_int_of_in_range _ hx.1 hx.2]
    · cases h
  case MUL_OP =>
    split at h
    · rename_i hx
      cases h
      simp [eval_tree, hl, hr, bind, Except.bind, pure, Except.pure,
        wrap_int_of_in_range _ hx.1 hx.2]
    · cases h
  all_goals cases h

/-- Arithmetic evaluation on trees that carry their leaf records: whenever the
specification gives the tree a value (integer leaves, the four arithmetic
operators, no zero divisor, no overflow), `eval_tree` returns that value and
leaves the table as it is. -/
theorem eval_tree_arith (t : tree_node_t) :
    ∀ v, arith_value t = some v → ∀ table, eval_tree t table = .ok (v, table) := by
  induction t with
  | NULL => intro v h; simp [arith_value] at h
  | leaf token node =>
    intro v h table
    simp only [arith_value] at h
    split at h
    · rename_i hn
      cases h; subst hn
      simp [eval_tree]
    · cases h
  | interior tok op l r ihl ihr =>
    intro v h table
    simp only [arith_value] at h
    split at h
    · rename_i a b ha hb
      exact arith_op_eval op a b v h table tok l r (ihl a ha table) (ihr b hb table)
    · cases h

theorem make_parse_tree_finish_NULL (stk : stack_t parse_tree_data) (r : tree_node_t)
    (h : make_parse_tree_finish stk = .ok r) : r = .NULL := by
  unfold make_parse_tree_finish at h
  cases stk with
  | dangling => simp [exactly_one, bind, Except.bind] at h
  | live nodes =>
    match nodes, h with
    | [], h => simp [exactly_one, free_stack, bind, Except.bind] at h
    | [d], h => simp [exactly_one, top, pop, free_stack, bind, Except.bind] at h
    | _ :: _ :: _, h =>
      simp [exactly_one, free_stack, bind, Except.bind, pure, Except.pure] at h
      exact h.symm

theorem free_then_NULL {α : Type} (stk : stack_t α) (r : tree_node_t)
    (h : (do let _ ← free_stack stk; return tree_node_t.NULL : Except Fault tree_node_t) = .ok r) :
    r = .NULL := by
  cases hf : free_stack stk with
  | error e => simp [hf, bind, Except.bind] at h
  | ok s => simp [hf, bind, Except.bind, pure, Except.pure] at h; exact h.symm

/-- No call of `make_parse_tree` returns a tree: whenever it returns, it
returns NULL (the path that holds a root calls `free_stack` on the emptied
stack before its `return`). -/
theorem make_parse_tree_never_tree (node_first_byte_zero : tree_node_t → Bool) (exp : String)
    (r : tree_node_t) (h : make_parse_tree node_first_byte_zero exp = .ok r) : r = .NULL := by
  unfold make_parse_tree at h
  split at h
  · simp at h; exact h.symm
  · cases hp : push_tokens node_first_byte_zero make_stack (strtok_all [] exp.data) with
    | error e => simp [hp, bind, Except.bind] at h
    | ok stk =>
      simp only [hp, ok_bind] at h
      split at h
      · exact free_then_NULL _ _ h
      · cases ht : top stk with
        | error e => simp [ht, bind, Except.bind] at h
        | ok data =>
          cases hq : pop stk with
          | error e => simp [ht, hq, bind, Except.bind] at h
          | ok stk2 =>
            simp only [ht, hq, ok_bind] at h
            have hpush : ∀ d, (do
                let stk ← @push _ (parse_tree_first_byte node_first_byte_zero) stk2 d
                make_parse_tree_finish stk) = .ok r → r = .NULL := by
              intro d hd
              cases hs : @push _ (parse_tree_first_byte node_first_byte_zero) stk2 d with
              | error e => simp [hs, bind, Except.bind] at hd
              | ok stk3 =>
                simp only [hs, ok_bind] at hd
                exact make_parse_tree_finish_NULL _ _ hd
            split at h
            · cases h
            · split at h
              · exact free_then_NULL _ _ h
              · split at h
                · exact hpush _ h
                · split at h
                  · exact hpush _ h
                  · exact free_then_NULL _ _ h

theorem print_infix_append (node : tree_node_t) :
    ∀ out, print_infix node out = out ++ infix_text node := by
  induction node with
  | NULL => intro out; simp [ print_infix, infix_text]
  | leaf token node => intro out; simp [ print_infix, infix_text, String.append_assoc]
  | interior token op l r ihl ihr =>
    intro out
    simp only [ print_infix, infix_text]
    rw [ihl (out ++ "("), ihr (out ++ "(" ++ infix_text l ++ " " ++ token ++ " "),
      ihl ("" ++ "("), ihr ("" ++ "(" ++ infix_text l ++ " " ++ token ++ " ")]
    simp [String.append_assoc]

/-- C13. A leaf is not rendered as its bare token: `print_infix` writes the token
followed by a space, so the leaf 5 is emitted as "5 " and the tree Add(5, 3) as
"(5  + 3 )", not "(5 + 3)". -/
theorem print_infix_leaf_trailing_space :
    infix_text (.leaf "5" (some ⟨.INTEGER⟩)) = "5 " ∧
    infix_text (.interior "+" .ADD_OP (.leaf "5" (some ⟨.INTEGER⟩)) (.leaf "3" (some ⟨.INTEGER⟩)))
      = "(5  + 3 )" ∧
    infix_text (.interior "+" .ADD_OP (.leaf "5" (some ⟨.INTEGER⟩)) (.leaf "3" (some ⟨.INTEGER⟩)))
      ≠ "(5 + 3)" := by
  refine ⟨by decide, by decide, by decide⟩

/-- C14. Infix rendering of interior nodes: for every interior node with display
token `tok` and children `l` and `r`, whatever its operator, the text emitted by
`print_infix` is "(" followed by the text emitted for `l`, a space, `tok`, a
space, the text emitted for `r`, and ")". -/
theorem print_infix_interior (tok : String) (op : op_type_t) (l r : tree_node_t) :
    infix_text (.interior tok op l r)
      = "(" ++ infix_text l ++ " " ++ tok ++ " " ++ infix_text r ++ ")" := by
  simp only [infix_text, print_infix]
  rw [print_infix_append l ("" ++ "("),
    print_infix_append r ("" ++ "(" ++ infix_text l ++ " " ++ tok ++ " ")]
  simp [infix_text]

/-- C11. No auto-declaration: whenever `eval_tree` returns, the names of the
table entries are the same, in the same order, as before the call (only values
can have changed); and assigning to a name that is absent, with a right side
that leaves the table as it is, returns with the table unchanged. -/
theorem eval_tree_no_auto_declare :
    (∀ (t : tree_node_t) (table table' : List symbol_t) (v : Int),
      eval_tree t table = .ok (v, table') → table_names table' = table_names table) ∧
    (∀ (tok n : String) (r : tree_node_t) (table : List symbol_t) (v : Int),
      lookup_table table n = none → eval_tree r table = .ok (v, table) →
        eval_tree (.interior tok .ASSIGN_OP (.leaf n (some ⟨.SYMBOL⟩)) r) table
          = .ok (0, table)) := by
  constructor
  · intro t table table' v h
    exact (keeps_names_all t).1 table v table' h
  · intro tok n r table v hn hr
    simp [eval_tree, hn, hr, bind, Except.bind, pure, Except.pure]

/-- Witness of C11: assigning 5 to the undefined name y in the table that
defines only x. -/
theorem eval_tree_no_auto_declare_witness :
    eval_tree (.interior "=" .ASSIGN_OP (.leaf "y" (some ⟨.SYMBOL⟩)) (.leaf "5" (some ⟨.INTEGER⟩)))
      [⟨"x", 1⟩] = .ok (0, [⟨"x", 1⟩]) ∧
    table_names [⟨"x", 1⟩] = table_names [⟨"x", 1⟩] ∧
    eval_tree (.interior "=" .ASSIGN_OP (.leaf "x" (some ⟨.SYMBOL⟩)) (.leaf "5" (some ⟨.INTEGER⟩)))
      [⟨"x", 1⟩] = .ok (5, [⟨"x", 5⟩]) ∧
    table_names [⟨"x", 5⟩] = table_names [⟨"x", 1⟩] :=
  ⟨eval_tree_no_auto_declare.2 "=" "y" _ [⟨"x", 1⟩] 5 (by decide) (by decide),
    eval_tree_no_auto_declare.1
      (.interior "=" .ASSIGN_OP (.leaf "y" (some ⟨.SYMBOL⟩)) (.leaf "5" (some ⟨.INTEGER⟩)))
      [⟨"x", 1⟩] [⟨"x", 1⟩] 0 (by decide),
    by decide,
    eval_tree_no_auto_declare.1
      (.interior "=" .ASSIGN_OP (.leaf "x" (some ⟨.SYMBOL⟩)) (.leaf "5" (some ⟨.INTEGER⟩)))
      [⟨"x", 1⟩] [⟨"x", 5⟩] 5 (by decide)⟩

/-- C12. Evaluation order: when the left child evaluates to `a` and leaves the
table `t1`, and the right child, evaluated in `t1`, gives `b` and the table
`t2`, an Add, Subtract or Multiply node returns the operator applied to `a` and
`b` with the table `t2`, and so does a Divide node when `b` is not 0; a Modulo
node returns with the table `t2` as well. -/
theorem eval_tree_left_then_right (tok : String) (l r : tree_node_t)
    (table t1 t2 : List symbol_t) (a b : Int)
    (hl : eval_tree l table = .ok (a, t1)) (hr : eval_tree r t1 = .ok (b, t2)) :
    eval_tree (.interior tok .ADD_OP l r) table = .ok (wrap_int (a + b), t2) ∧
    eval_tree (.interior tok .SUB_OP l r) table = .ok (wrap_int (a - b), t2) ∧
    eval_tree (.interior tok .MUL_OP l r) table = .ok (wrap_int (a * b), t2) ∧
    (b ≠ 0 → eval_tree (.interior tok .DIV_OP l r) table = .ok (wrap_int (Int.tdiv a b), t2)) ∧
    (∃ v, eval_tree (.interior tok .MOD_OP l r) table = .ok (v, t2)) := by
  refine ⟨?_, ?_, ?_, ?_, ⟨0, ?_⟩⟩
  · simp [eval_tree, hl, hr, bind, Except.bind, pure, Except.pure]
  · simp [eval_tree, hl, hr, bind, Except.bind, pure, Except.pure]
  · simp [eval_tree, hl, hr, bind, Except.bind, pure, Except.pure]
  · intro hb
    simp [eval_tree, hl, hr, hb, bind, Except.bind, pure, Except.pure]
  · simp [eval_tree, hl, hr, bind, Except.bind, pure, Except.pure]

/-- Witness of C12: with x defined as 1, Add(Symbol x, Assign(Symbol x, 5))
evaluates to 6 and Add(Assign(Symbol x, 5), Symbol x) evaluates to 10. -/
theorem eval_tree_left_then_right_witness :
    eval_tree
      (.interior "+" .ADD_OP (.leaf "x" (some ⟨.SYMBOL⟩))
        (.interior "=" .ASSIGN_OP (.leaf "x" (some ⟨.SYMBOL⟩)) (.leaf "5" (some ⟨.INTEGER⟩))))
      [⟨"x", 1⟩] = .ok (6, [⟨"x", 5⟩]) ∧
    eval_tree
      (.interior "+" .ADD_OP
        (.interior "=" .ASSIGN_OP (.leaf "x" (some ⟨.SYMBOL⟩)) (.leaf "5" (some ⟨.INTEGER⟩)))
        (.leaf "x" (some ⟨.SYMBOL⟩)))
      [⟨"x", 1⟩] = .ok (10, [⟨"x", 5⟩]) :=
  ⟨(eval_tree_left_then_right "+" _ _ [⟨"x", 1⟩] [⟨"x", 1⟩] [⟨"x", 5⟩] 1 5
      (by decide) (by decide)).1,
    (eval_tree_left_then_right "+" _ _ [⟨"x", 1⟩] [⟨"x", 5⟩] [⟨"x", 5⟩] 5 5
      (by decide) (by decide)).1⟩

/-- C15. An operator popped from a stack that holds nothing else does not make
`parse` return NULL: the arity exit calls `free_stack` on the empty stack, which
dereferences the NULL `top`. With one entry left the exit does return NULL. -/
theorem parse_operator_alone_faults :
    (push_all make_stack ["+"] >>= parse) = .error .null_deref ∧
    (push_all make_stack ["*"] >>= parse) = .error .null_deref ∧
    (push_all make_stack ["/"] >>= parse) = .error .null_deref ∧
    (push_all make_stack ["%"] >>= parse) = .error .null_deref ∧
    (push_all make_stack ["="] >>= parse) = .error .null_deref ∧
    (push_all make_stack ["3", "+"] >>= parse) = .ok (.NULL, .live ["3"]) := by
  refine ⟨by decide, by decide, by decide, by decide, by decide, by decide⟩

/-- Counterexample to C16: with "+" and then "3" pushed, `parse` returns the
leaf for "3" and leaves "+" on the stack; no error is raised. -/
theorem parse_plus_three_returns_leaf :
    (push_all make_stack ["+", "3"] >>= parse) = .ok (.leaf "3" none, .live ["+"]) := by
  decide

/-- C18. The token ":" is not parsed as an alternative node: with "5", "3", ":"
pushed, `parse` takes its invalid-token exit, frees the stack and returns NULL. -/
theorem parse_colon_is_rejected :
    (push_all make_stack ["5", "3", ":"] >>= parse) = .ok (.NULL, .dangling) := by
  decide

/-- C19. Unknown tokens are not rejected: with "3", "4" and then "@" (or "&&")
pushed, `parse` returns an ALT_OP node with display token ":" whose children are
the leaves for "4" and "3". -/
theorem parse_unknown_token_builds_alt :
    (push_all make_stack ["3", "4", "@"] >>= parse)
      = .ok (.interior ":" .ALT_OP (.leaf "4" none) (.leaf "3" none), .live []) ∧
    (push_all make_stack ["3", "4", "&&"] >>= parse)
      = .ok (.interior ":" .ALT_OP (.leaf "4" none) (.leaf "3" none), .live []) := by
  constructor <;> decide

theorem make_parse_tree_plus_three (node_first_byte_zero : tree_node_t → Bool) :
    make_parse_tree node_first_byte_zero "+ 3"
      = (do
          let stk ← @push _ (parse_tree_first_byte node_first_byte_zero) (.live [.inl "+"])
            (.inr (make_leaf .INTEGER "3"))
          make_parse_tree_finish stk) := by
  rfl

/-- C16 as amended. With "+" and then "3" pushed, `parse` raises no arity error:
it returns the leaf for "3" and leaves "+" on the stack. The expression "+ 3" is
turned down by `make_parse_tree`, which never returns a tree for it and, when
its push of the leaf node is not dropped, returns NULL through its
too-many-tokens exit. -/
theorem plus_three_rejected_as_trailing (node_first_byte_zero : tree_node_t → Bool) :
    (push_all make_stack ["+", "3"] >>= parse) = .ok (leaf_of "3", .live ["+"]) ∧
    (node_first_byte_zero (make_leaf .INTEGER "3") = false →
      make_parse_tree node_first_byte_zero "+ 3" = .ok .NULL) ∧
    (∀ r, make_parse_tree node_first_byte_zero "+ 3" = .ok r → r = .NULL) := by
  refine ⟨by decide, ?_, fun r h => make_parse_tree_never_tree _ _ r h⟩
  intro h
  rw [make_parse_tree_plus_three]
  simp [push, parse_tree_first_byte, h, make_parse_tree_finish, exactly_one, free_stack,
    bind, Except.bind, pure, Except.pure]

/-- Witness of C16 as amended: a record layout whose first byte is never zero. -/
theorem plus_three_rejected_as_trailing_witness :
    (fun _ : tree_node_t => false) (make_leaf .INTEGER "3") = false ∧
    make_parse_tree (fun _ => false) "+ 3" = .ok .NULL :=
  ⟨rfl, (plus_three_rejected_as_trailing (fun _ => false)).2.1 rfl⟩

theorem strtok_all_spaces (n : Nat) :
    strtok_all [] (List.replicate n (Char.ofNat 32)) = [] := by
  induction n with
  | zero => rfl
  | succ n ih => simp [List.replicate_succ, strtok_all, ih]

/-- C20. A string of spaces does not make `make_parse_tree` return NULL: no
token is pushed, and the empty-expression exit calls `free_stack` on the empty
stack, which dereferences the NULL `top`. The empty string, and `parse` on an
empty stack, do return NULL. -/
theorem make_parse_tree_blank_faults (node_first_byte_zero : tree_node_t → Bool) :
    parse make_stack = .ok (.NULL, .live []) ∧
    make_parse_tree node_first_byte_zero "" = .ok .NULL ∧
    make_parse_tree node_first_byte_zero " " = .error .null_deref ∧
    ∀ n, make_parse_tree node_first_byte_zero (String.mk (List.replicate (n + 1) (Char.ofNat 32)))
      = .error .null_deref := by
  refine ⟨by decide, rfl, rfl, ?_⟩
  intro n
  unfold make_parse_tree
  rw [if_neg (by simp [List.replicate_succ])]
  simp only [strtok_all_spaces, push_tokens, make_stack, empty_stack, free_stack, ok_bind,
    error_bind, if_true]

theorem leaves_rest_ok {nodes : List String} {r : tree_node_t} {s : stack_t String}
    (h : good_return nodes r s) : leaves_rest nodes (.ok (r, s)) := by
  intro r' s' h'
  simp only [Except.ok.injEq, Prod.mk.injEq] at h'
  rw [← h'.1, ← h'.2]; exact h

theorem good_return_NULL {nodes : List String} {r : tree_node_t} {s : stack_t String}
    (h : good_return nodes r s) : good_return nodes .NULL s := by
  rcases h with ⟨hs, -⟩ | h
  · exact Or.inl ⟨hs, rfl⟩
  · exact Or.inr h

theorem good_return_of_ne_NULL {nodes : List String} {r r' : tree_node_t} {s : stack_t String}
    (h : good_return nodes r s) (hr : r ≠ .NULL) : good_return nodes r' s := by
  rcases h with ⟨-, h0⟩ | h
  · exact absurd h0 hr
  · exact Or.inr h

theorem leaves_rest_mono {n1 n2 : List String}
    {m : Except Fault (tree_node_t × stack_t String)} (hn : n1 <:+ n2)
    (h : leaves_rest n1 m) : leaves_rest n2 m := by
  intro r s hm
  rcases h r s hm with h | ⟨rest, hs, hrest⟩
  · exact Or.inl h
  · exact Or.inr ⟨rest, hs, hrest.trans hn⟩

theorem leaves_rest_bind {nodes : List String}
    {m : Except Fault (tree_node_t × stack_t String)}
    {k : tree_node_t × stack_t String → Except Fault (tree_node_t × stack_t String)}
    (hm : leaves_rest nodes m) (hk : ∀ r s, good_return nodes r s → leaves_rest nodes (k (r, s))) :
    leaves_rest nodes (m >>= k) := by
  cases m with
  | error e => rw [error_bind]; intro _ _ h; cases h
  | ok p =>
    obtain ⟨r, s⟩ := p
    rw [ok_bind]
    exact hk r s (hm r s rfl)

theorem leaves_rest_free {nodes : List String} {r : tree_node_t} {s : stack_t String}
    (h : good_return nodes r s) :
    leaves_rest nodes (free_stack s >>= fun s' => pure (tree_node_t.NULL, s')) := by
  rcases h with ⟨rfl, -⟩ | ⟨rest, rfl, hrest⟩
  · intro _ _ h; simp [free_stack, error_bind] at h
  · match rest, hrest with
    | [], _ => intro _ _ h; simp [free_stack, error_bind] at h
    | [d], hrest =>
      simp only [free_stack, ok_bind]
      exact leaves_rest_ok (Or.inr ⟨[d], rfl, hrest⟩)
    | _ :: _ :: _, _ =>
      simp only [free_stack, ok_bind]
      exact leaves_rest_ok (Or.inl ⟨rfl, rfl⟩)

theorem parseFuel_dangling (fuel : Nat) (r : tree_node_t) (s : stack_t String) :
    parseFuel fuel .dangling ≠ .ok (r, s) := by
  cases fuel <;> simp [parseFuel, empty_stack, top, error_bind]

theorem parseFuel_leaves_rest (fuel : Nat) :
    (∀ nodes : List String, leaves_rest nodes (parseFuel fuel (.live nodes))) ∧
    (∀ (tok : String) (rest : List String),
      leaves_rest rest (parseFuel fuel (.live (tok :: rest)))) := by
  induction fuel with
  | zero =>
    constructor
    · intro nodes r s h; simp [parseFuel] at h
    · intro tok rest r s h; simp [parseFuel] at h
  | succ fuel ih =>
    have hcons : ∀ (tok : String) (rest : List String),
        leaves_rest rest (parseFuel (fuel + 1) (.live (tok :: rest))) := by
      intro tok rest
      have key : ∀ r s, good_return rest r s → leaves_rest rest (parseFuel fuel s) := by
        intro r s hg
        rcases hg with ⟨rfl, -⟩ | ⟨l, rfl, hl⟩
        · intro r' s' h; exact absurd h (parseFuel_dangling fuel r' s')
        · exact leaves_rest_mono hl (ih.1 l)
      have hlive : ∀ r, good_return rest r (.live rest) :=
        fun _ => Or.inr ⟨rest, rfl, List.suffix_refl _⟩
      rw [parseFuel]
      simp only [empty_stack, top, pop, ok_bind, Bool.false_eq_true, if_false,
        fewer_than_two_live]
      split
      · exact leaves_rest_free (hlive .NULL)
      split
      · exact leaves_rest_ok (hlive _)
      split
      · exact leaves_rest_ok (hlive _)
      split
      · split
        · exact leaves_rest_free (hlive .NULL)
        · refine leaves_rest_bind (key _ _ (hlive .NULL)) (fun r1 s1 h1 => ?_)
          refine leaves_rest_bind (key _ _ h1) (fun r2 s2 h2 => ?_)
          split
          · exact leaves_rest_free h2
          · split
            · exact leaves_rest_free h2
            · rename_i op _ hnu
              refine leaves_rest_ok (good_return_of_ne_NULL h2 ?_)
              intro h0
              apply hnu
              subst h0
              simp [make_interior, node_unusable]
      split
      · refine leaves_rest_bind (key _ _ (hlive .NULL)) (fun r1 s1 h1 => ?_)
        split
        · exact leaves_rest_ok (good_return_NULL h1)
        refine leaves_rest_bind (key _ _ h1) (fun r2 s2 h2 => ?_)
        split
        · exact leaves_rest_ok (good_return_NULL h2)
        refine leaves_rest_bind (key _ _ h2) (fun r3 s3 h3 => ?_)
        split
        · exact leaves_rest_ok (good_return_NULL h3)
        rename_i hf
        split
        · exact leaves_rest_free h3
        · exact leaves_rest_ok (good_return_of_ne_NULL h3 hf)
      split
      · refine leaves_rest_bind (key _ _ (hlive .NULL)) (fun r1 s1 h1 => ?_)
        refine leaves_rest_bind (key _ _ h1) (fun r2 s2 h2 => ?_)
        split
        · exact leaves_rest_ok (good_return_NULL h2)
        · rename_i hor
          exact leaves_rest_ok (good_return_of_ne_NULL h2 (fun h0 => hor (Or.inr h0)))
      · exact leaves_rest_free (hlive .NULL)
    refine ⟨?_, hcons⟩
    intro nodes
    cases nodes with
    | nil =>
      rw [parseFuel]
      simp only [empty_stack, if_true]
      exact leaves_rest_ok (Or.inr ⟨[], rfl, List.suffix_refl _⟩)
    | cons tok rest => exact leaves_rest_mono (List.suffix_cons tok rest) (hcons tok rest)

/-- Counterexample to C17: with "3" and then "4" pushed, `parse` returns a tree,
the leaf for "4", and the stack still holds "3". -/
theorem parse_leaves_trailing_token :
    (push_all make_stack ["3", "4"] >>= parse) = .ok (.leaf "4" none, .live ["3"]) := by
  decide

/-- C17 as amended. For every token stack, if `parse` returns a tree then it has
consumed at least one token from the top and the stack afterwards holds exactly
the tokens below the consumed ones, untouched; it need not be empty. -/
theorem parse_leaves_rest (stack : stack_t String) (r : tree_node_t) (s : stack_t String)
    (h : parse stack = .ok (r, s)) (hr : r ≠ .NULL) :
    ∃ consumed rest, consumed ≠ [] ∧ stack = .live (consumed ++ rest) ∧ s = .live rest := by
  cases stack with
  | dangling => exact absurd h (parseFuel_dangling _ r s)
  | live nodes =>
    cases nodes with
    | nil =>
      have h0 : parse (.live []) = .ok (.NULL, .live []) := by decide
      rw [h0] at h
      simp only [Except.ok.injEq, Prod.mk.injEq] at h
      exact absurd h.1.symm hr
    | cons tok rest0 =>
      have hg := (parseFuel_leaves_rest _).2 tok rest0 r s h
      rcases hg with ⟨-, h0⟩ | ⟨rest, hs, c, hc⟩
      · exact absurd h0 hr
      · exact ⟨tok :: c, rest, by simp, by simp [hc], hs⟩

/-- Witness of C17 as amended: the tokens "3", "4" give the leaf for "4" and
leave "3" on the stack. -/
theorem parse_leaves_rest_witness :
    parse (.live ["4", "3"]) = .ok (.leaf "4" none, .live ["3"]) ∧
    ∃ consumed rest, consumed ≠ [] ∧
      (stack_t.live ["4", "3"] : stack_t String) = .live (consumed ++ rest) ∧
      (stack_t.live ["3"] : stack_t String) = .live rest :=
  ⟨by decide, parse_leaves_rest (.live ["4", "3"]) (.leaf "4" none) (.live ["3"])
    (by decide) (by simp)⟩

theorem returns_well_formed_ok {r : tree_node_t} {s : stack_t String}
    (h : r = .NULL ∨ well_formed r = true) : returns_well_formed (.ok (r, s)) := by
  intro r' s' h'
  simp only [Except.ok.injEq, Prod.mk.injEq] at h'
  rw [← h'.1]; exact h

theorem returns_well_formed_bind {m : Except Fault (tree_node_t × stack_t String)}
    {k : tree_node_t × stack_t String → Except Fault (tree_node_t × stack_t String)}
    (hm : returns_well_formed m)
    (hk : ∀ r s, (r = .NULL ∨ well_formed r = true) → returns_well_formed (k (r, s))) :
    returns_well_formed (m >>= k) := by
  cases m with
  | error e => rw [error_bind]; intro _ _ h; cases h
  | ok p =>
    obtain ⟨r, s⟩ := p
    rw [ok_bind]
    exact hk r s (hm r s rfl)

theorem returns_well_formed_free (s : stack_t String) :
    returns_well_formed (free_stack s >>= fun s' => pure (tree_node_t.NULL, s')) := by
  intro r s' h
  cases hf : free_stack s with
  | error e => rw [hf, error_bind] at h; cases h
  | ok s2 =>
    rw [hf, ok_bind] at h
    simp only [pure, Except.pure, Except.ok.injEq, Prod.mk.injEq] at h
    exact Or.inl h.1.symm

theorem well_formed_make_interior (op : op_type_t) (token : String) (l r : tree_node_t)
    (hl : l = .NULL ∨ well_formed l = true) (hr : r = .NULL ∨ well_formed r = true) :
    make_interior op token l r = .NULL ∨ well_formed (make_interior op token l r) = true := by
  unfold make_interior
  split
  · exact Or.inl rfl
  · rename_i hn
    split
    · exact Or.inl rfl
    · rename_i ht
      right
      have h1 : well_formed l = true := hl.resolve_left (fun h => hn (Or.inl h))
      have h2 : well_formed r = true := hr.resolve_left (fun h => hn (Or.inr h))
      simp [well_formed, ht, h1, h2]

theorem parseFuel_well_formed (fuel : Nat) :
    ∀ stack : stack_t String, returns_well_formed (parseFuel fuel stack) := by
  induction fuel with
  | zero => intro stack r s h; simp [parseFuel] at h
  | succ fuel ih =>
    intro stack
    cases stack with
    | dangling => intro r s h; exact absurd h (parseFuel_dangling _ r s)
    | live nodes =>
      cases nodes with
      | nil =>
        rw [parseFuel]
        simp only [empty_stack, if_true]
        exact returns_well_formed_ok (Or.inl rfl)
      | cons tok rest =>
        rw [parseFuel]
        simp only [empty_stack, top, pop, ok_bind, Bool.false_eq_true, if_false,
          fewer_than_two_live]
        split
        · exact returns_well_formed_free _
        split
        · exact returns_well_formed_ok (Or.inr rfl)
        split
        · exact returns_well_formed_ok (Or.inr rfl)
        split
        · split
          · exact returns_well_formed_free _
          · refine returns_well_formed_bind (ih _) (fun r1 s1 h1 => ?_)
            refine returns_well_formed_bind (ih _) (fun r2 s2 h2 => ?_)
            split
            · exact returns_well_formed_free _
            · split
              · exact returns_well_formed_free _
              · exact returns_well_formed_ok (well_formed_make_interior _ _ _ _ h2 h1)
        split
        · refine returns_well_formed_bind (ih _) (fun r1 s1 h1 => ?_)
          split
          · exact returns_well_formed_ok (Or.inl rfl)
          refine returns_well_formed_bind (ih _) (fun r2 s2 h2 => ?_)
          split
          · exact returns_well_formed_ok (Or.inl rfl)
          refine returns_well_formed_bind (ih _) (fun r3 s3 h3 => ?_)
          split
          · exact returns_well_formed_ok (Or.inl rfl)
          split
          · exact returns_well_formed_free _
          · exact returns_well_formed_ok (well_formed_make_interior _ _ _ _ h1
              (well_formed_make_interior _ _ _ _ h2 h3))
        split
        · refine returns_well_formed_bind (ih _) (fun r1 s1 h1 => ?_)
          refine returns_well_formed_bind (ih _) (fun r2 s2 h2 => ?_)
          split
          · exact returns_well_formed_ok (Or.inl rfl)
          · exact returns_well_formed_ok (well_formed_make_interior _ _ _ _ h1 h2)
        · exact returns_well_formed_free _

/-- C21. Well-formedness of parse results: for every token stack, every tree
`parse` returns (a non-NULL result) is well-formed: each interior node in it has
a non-empty display token and two non-NULL, well-formed children, and a leaf has
no children. -/
theorem parse_well_formed (stack : stack_t String) (r : tree_node_t) (s : stack_t String)
    (h : parse stack = .ok (r, s)) (hr : r ≠ .NULL) : well_formed r = true :=
  (parseFuel_well_formed _ stack r s h).resolve_left hr

/-- Witness of C21: the tree parsed from "1", "3", "5", "?". -/
theorem parse_well_formed_witness :
    parse (.live ["?", "5", "3", "1"])
      = .ok (.interior "?" .Q_OP (.leaf "5" none)
          (.interior ":" .ALT_OP (.leaf "3" none) (.leaf "1" none)), .live []) ∧
    well_formed (.interior "?" .Q_OP (.leaf "5" none)
      (.interior ":" .ALT_OP (.leaf "3" none) (.leaf "1" none))) = true :=
  ⟨by decide, parse_well_formed (.live ["?", "5", "3", "1"]) _ (.live []) (by decide) (by simp)⟩

/-- C22. Define-then-lookup with shadowing: for every table, name and value,
after `add_symbol(n, v)` the call `lookup_table(n)` returns an entry with name
`n` and value `v`, whether or not `n` was already present. -/
theorem lookup_after_add_symbol (table : List symbol_t) (n : String) (v : Int) :
    lookup_table (add_symbol table n v) n = some ⟨n, v⟩ := by
  simp [add_symbol, create_symbol, lookup_table]

theorem isAlpha_isAlphanum (c : Char) (h : c.isAlpha = true) : c.isAlphanum = true := by
  simp [Char.isAlphanum, h]

theorem load_entry_eq (table : List symbol_t) (name : String) (val : Int) :
    load_entry table name val
      = if valid_symbol_name name then .ok (add_symbol table name val)
        else .error .exit_failure := by
  rcases name with ⟨l⟩
  cases l with
  | nil =>
    have : isalpha (first_char ⟨[]⟩) = false := by decide
    simp [load_entry, valid_symbol_name, this]
  | cons c cs =>
    by_cases hc : c.isAlpha = true
    · simp [load_entry, valid_symbol_name, isalpha, first_char, isalnum, hc,
        isAlpha_isAlphanum c hc]
    · simp [load_entry, valid_symbol_name, isalpha, first_char, isalnum, hc]

/-- Counterexample to C23: `add_symbol` accepts the name "1x": it creates the
entry and a lookup finds it. -/
theorem add_symbol_accepts_any_name :
    add_symbol [] "1x" 5 = [⟨"1x", 5⟩] ∧
    lookup_table (add_symbol [] "1x" 5) "1x" = some ⟨"1x", 5⟩ := by
  constructor <;> decide

/-- C23 as amended. Names are validated by the loader, not by `add_symbol`: for a
record with name `name`, `load` defines the name exactly when it starts with an
alphabetic character and every following character is alphanumeric, and
otherwise stops the process with no entry created; "1x" is turned down and "x1"
is defined. -/
theorem load_entry_validates (table : List symbol_t) (name : String) (val : Int) :
    load_entry table name val
      = (if valid_symbol_name name then .ok (add_symbol table name val)
        else .error .exit_failure) ∧
    load_entry table "1x" 5 = .error .exit_failure ∧
    load_entry table "x1" 5 = .ok (add_symbol table "x1" 5) := by
  refine ⟨load_entry_eq table name val, ?_, ?_⟩
  · rw [load_entry_eq]; rfl
  · rw [load_entry_eq]; rfl

theorem push_top_pop {α : Type} [FirstByte α] (nodes : List α) (d : α)
    (h : FirstByte.first_byte_zero d = false) :
    push (.live nodes) d = .ok (.live (d :: nodes)) ∧
    empty_stack (stack_t.live (d :: nodes)) = false ∧
    top (stack_t.live (d :: nodes)) = .ok d ∧
    pop (stack_t.live (d :: nodes)) = .ok (.live nodes) := by
  simp [push, h, empty_stack, top, pop]

/-- C24. The stack is not LIFO for every data item: pushing a pointer to the
`int` 0 on an empty stack leaves the stack empty, so `top` exits instead of
returning the item. Pushing 10 and then 20 behaves as the test expects. -/
theorem push_drops_zero_first_byte :
    push (make_stack : stack_t Int) 0 = .ok (.live []) ∧
    (push (make_stack : stack_t Int) 0 >>= fun s => pure (empty_stack s)) = .ok true ∧
    (push (make_stack : stack_t Int) 0 >>= top) = .error .exit_failure ∧
    (push_all (make_stack : stack_t Int) [10, 20] >>= top) = .ok 20 ∧
    (push_all (make_stack : stack_t Int) [10, 20] >>= pop >>= top) = .ok 10 := by
  refine ⟨by decide, by decide, by decide, by decide, by decide⟩

/-- C25. `eval` does not return the value of every expression: the literal 0 (a
pointer to an `int` whose first byte is zero) is dropped by `push`, so for
"0 5 +" the operator finds one operand only and `top` exits the process; an
intermediate or final value 0 ("5 5 -") or 256 ("256 1 *") is lost the same way.
"5 3 +" does return 8. -/
theorem eval_zero_operand_exits (table : List symbol_t) (junk : String) :
    eval table "5 3 +" junk = .ok (8, table, "(5 + 3)") ∧
    eval table "0 5 +" junk = .error .exit_failure ∧
    eval table "5 5 -" junk = .error .exit_failure ∧
    eval table "256 1 *" junk = .error .exit_failure := by
  refine ⟨rfl, rfl, rfl, rfl⟩

/-- C26. A comment-only line with leading blanks is not a no-op: for the line
"   # note" the text handed to `eval` is "   ", which holds no token, and the
`top` after the loop exits the process. An empty line and a line that starts
with `#` are skipped. -/
theorem prompt_blank_line_exits (table : List symbol_t) (junk : String) :
    prompt_line table "   # note\n" junk = .error .exit_failure ∧
    prompt_line table "   # note" junk = .error .exit_failure ∧
    prompt_line table "   \n" junk = .error .exit_failure ∧
    prompt_line table "\n" junk = .ok (table, "") ∧
    prompt_line table "# note\n" junk = .ok (table, "") := by
  refine ⟨rfl, rfl, rfl, rfl, rfl⟩

/-- C29. The assignment of `eval` does not store into the first operand: it
writes through `symbol`, the entry of the identifier looked up last. With x = 1
and y = 2, "x y 3 + =" returns 5, leaves x at 1 and sets y to 5; "x y =" leaves
x at 1. With no identifier in the operand, "x 5 =" does set x to 5. -/
theorem eval_assigns_last_symbol (junk : String) :
    eval [⟨"x", 1⟩, ⟨"y", 2⟩] "x y 3 + =" junk
      = .ok (5, [⟨"x", 1⟩, ⟨"y", 5⟩], "(x=(x+1))") ∧
    eval [⟨"x", 1⟩, ⟨"y", 2⟩] "x y =" junk = .ok (2, [⟨"x", 1⟩, ⟨"y", 2⟩], "(x=(x+1))") ∧
    eval [⟨"x", 1⟩] "x 5 =" junk = .ok (5, [⟨"x", 5⟩], "(x=(x+1))") := by
  refine ⟨rfl, rfl, rfl⟩

/-- C27. A Modulo node does not evaluate to the remainder: the `switch` of
`eval_tree` has no case for MOD_OP, so the tree of "7 3 %" evaluates to 0, not 1. -/
theorem eval_tree_modulo_is_zero :
    eval_tree (.interior "%" .MOD_OP (.leaf "7" (some ⟨.INTEGER⟩)) (.leaf "3" (some ⟨.INTEGER⟩))) []
      = .ok (0, []) ∧
    eval_tree (.interior "%" .MOD_OP (.leaf "7" (some ⟨.INTEGER⟩)) (.leaf "3" (some ⟨.INTEGER⟩))) []
      ≠ .ok (1, []) := by
  constructor <;> decide

theorem evaluates_purely_interior (tok : String) (op : op_type_t) (l r : tree_node_t)
    (hl : evaluates_purely l) (hr : evaluates_purely r)
    (hrr : ∀ rtok rop rl rr, r = .interior rtok rop rl rr →
      evaluates_purely rl ∧ evaluates_purely rr) :
    evaluates_purely (.interior tok op l r) := by
  intro hp table
  simp only [assignment_free, Bool.and_eq_true, Bool.or_eq_true, decide_eq_true_eq,
    ne_eq] at hp
  obtain ⟨⟨⟨hop, hpl⟩, hpr⟩, hq⟩ := hp
  obtain ⟨a, ha⟩ := hl hpl table
  obtain ⟨b, hb⟩ := hr hpr table
  cases op
  case ASSIGN_OP => exact absurd rfl hop
  case Q_OP =>
    cases r with
    | NULL => simp at hq
    | leaf t n => simp at hq
    | interior rtok rop rl rr =>
      obtain ⟨hrl, hrrr⟩ := hrr _ _ _ _ rfl
      simp only [assignment_free, Bool.and_eq_true] at hpr
      obtain ⟨vl, hvl⟩ := hrl hpr.1.1.2 table
      obtain ⟨vr, hvr⟩ := hrrr hpr.1.2 table
      by_cases hc : a = 0
      · exact ⟨vr, by simp [eval_tree, ha, hb, hc, hvr, bind, Except.bind]⟩
      · exact ⟨vl, by simp [eval_tree, ha, hb, hc, hvl, bind, Except.bind]⟩
  case DIV_OP =>
    by_cases hz : b = 0
    · exact ⟨0, by simp [eval_tree, ha, hb, hz, bind, Except.bind, pure, Except.pure]⟩
    · exact ⟨_, by simp [eval_tree, ha, hb, hz, bind, Except.bind, pure, Except.pure]; rfl⟩
  all_goals exact ⟨_, by simp [eval_tree, ha, hb, bind, Except.bind, pure, Except.pure]; rfl⟩

theorem evaluates_purely_all (t : tree_node_t) :
    evaluates_purely t ∧
      ∀ tok op l r, t = .interior tok op l r → evaluates_purely l ∧ evaluates_purely r := by
  induction t with
  | NULL =>
    refine ⟨?_, by intro _ _ _ _ h; cases h⟩
    intro _ table
    exact ⟨0, by simp [eval_tree]⟩
  | leaf token node =>
    refine ⟨?_, by intro _ _ _ _ h; cases h⟩
    intro hp table
    rcases node with _ | ⟨⟨_ | _⟩⟩
    · simp [assignment_free] at hp
    · exact ⟨_, by simp [eval_tree]; rfl⟩
    · cases hlk : lookup_table table token with
      | none => exact ⟨0, by simp [eval_tree, hlk]⟩
      | some e => exact ⟨e.val, by simp [eval_tree, hlk]⟩
  | interior token op l r ihl ihr =>
    refine ⟨evaluates_purely_interior token op l r ihl.1 ihr.1 ihr.2, ?_⟩
    intro _ _ _ _ h
    cases h
    exact ⟨ihl.1, ihr.1⟩

/-- C28. Ternary value selection: for every tree Q_OP(c, ALT_OP(t, f)) whose
subtrees contain no assignment, the three subtrees evaluate to integers `vc`,
`vt`, `vf` without changing the table, and `eval_tree` returns `vt` when `vc` is
nonzero and `vf` when `vc` is 0. -/
theorem eval_tree_ternary_selects (tokq tokalt : String) (c t f : tree_node_t)
    (hc : assignment_free c = true) (ht : assignment_free t = true)
    (hf : assignment_free f = true) (table : List symbol_t) :
    ∃ vc vt vf, eval_tree c table = .ok (vc, table) ∧ eval_tree t table = .ok (vt, table) ∧
      eval_tree f table = .ok (vf, table) ∧
      eval_tree (.interior tokq .Q_OP c (.interior tokalt .ALT_OP t f)) table
        = .ok (if vc ≠ 0 then vt else vf, table) := by
  obtain ⟨vc, hvc⟩ := (evaluates_purely_all c).1 hc table
  obtain ⟨vt, hvt⟩ := (evaluates_purely_all t).1 ht table
  obtain ⟨vf, hvf⟩ := (evaluates_purely_all f).1 hf table
  refine ⟨vc, vt, vf, hvc, hvt, hvf, ?_⟩
  by_cases h0 : vc = 0
  · simp [eval_tree, hvc, hvt, hvf, h0, bind, Except.bind, pure, Except.pure]
  · simp [eval_tree, hvc, hvt, hvf, h0, bind, Except.bind, pure, Except.pure]

/-- Witness of C28: with x = 4 the tree Q_OP(Symbol x, ALT_OP(3, 5)) evaluates to
3, and the tree Q_OP(0, ALT_OP(3, 5)) to 5. -/
theorem eval_tree_ternary_selects_witness :
    eval_tree
      (.interior "?" .Q_OP (.leaf "x" (some ⟨.SYMBOL⟩))
        (.interior ":" .ALT_OP (.leaf "3" (some ⟨.INTEGER⟩)) (.leaf "5" (some ⟨.INTEGER⟩))))
      [⟨"x", 4⟩] = .ok (3, [⟨"x", 4⟩]) ∧
    eval_tree
      (.interior "?" .Q_OP (.leaf "0" (some ⟨.INTEGER⟩))
        (.interior ":" .ALT_OP (.leaf "3" (some ⟨.INTEGER⟩)) (.leaf "5" (some ⟨.INTEGER⟩))))
      [⟨"x", 4⟩] = .ok (5, [⟨"x", 4⟩]) ∧
    ∃ vc vt vf, eval_tree (.leaf "x" (some ⟨.SYMBOL⟩)) [⟨"x", 4⟩] = .ok (vc, [⟨"x", 4⟩]) ∧
      eval_tree (.leaf "3" (some ⟨.INTEGER⟩)) [⟨"x", 4⟩] = .ok (vt, [⟨"x", 4⟩]) ∧
      eval_tree (.leaf "5" (some ⟨.INTEGER⟩)) [⟨"x", 4⟩] = .ok (vf, [⟨"x", 4⟩]) ∧
      eval_tree
        (.interior "?" .Q_OP (.leaf "x" (some ⟨.SYMBOL⟩))
          (.interior ":" .ALT_OP (.leaf "3" (some ⟨.INTEGER⟩)) (.leaf "5" (some ⟨.INTEGER⟩))))
        [⟨"x", 4⟩] = .ok (if vc ≠ 0 then vt else vf, [⟨"x", 4⟩]) :=
  ⟨by decide, by decide,
    eval_tree_ternary_selects "?" ":" _ _ _ (by decide) (by decide) (by decide) [⟨"x", 4⟩]⟩

theorem lookup_add_symbol_other (table : List symbol_t) (n m : String) (v : Int)
    (h : m ≠ n) : lookup_table (add_symbol table n v) m = lookup_table table m := by
  simp [add_symbol, create_symbol, lookup_table, Ne.symm h]

theorem lookup_add_symbols_none (adds : List (String × Int)) (m : String) :
    ∀ table : List symbol_t, lookup_table table m = none → (∀ p ∈ adds, p.1 ≠ m) →
      lookup_table (add_symbols table adds) m = none := by
  induction adds with
  | nil => intro table h _; exact h
  | cons p adds ih =>
    intro table h hp
    obtain ⟨name, val⟩ := p
    have hne : m ≠ name := Ne.symm (hp (name, val) (List.mem_cons_self _ _))
    simp only [add_symbols]
    refine ih _ ?_ (fun q hq => hp q (List.mem_cons_of_mem _ hq))
    rw [lookup_add_symbol_other table name m val hne]
    exact h

/-- C31. Frame of `add_symbol`: for every table, names `n` and `m` with `m`
different from `n`, and value `v`, `lookup_table(m)` gives the same result
(absent, or the same entry) after `add_symbol(n, v)` as before it; and in a
table built from the empty one by `add_symbol` calls, none of them for `m`,
`lookup_table(m)` returns NULL. -/
theorem add_symbol_frame (table : List symbol_t) (n m : String) (v : Int) (h : m ≠ n) :
    lookup_table (add_symbol table n v) m = lookup_table table m ∧
    ∀ adds : List (String × Int), (∀ p ∈ adds, p.1 ≠ m) →
      lookup_table (add_symbols [] adds) m = none :=
  ⟨lookup_add_symbol_other table n m v h,
    fun adds hp => lookup_add_symbols_none adds m [] rfl hp⟩

/-- Witness of C31: with myVar = 7 in the table, adding testVar = 42 leaves the
lookup of myVar as it was, and nonExistentVar, never added, is not found. -/
theorem add_symbol_frame_witness :
    "myVar" ≠ "testVar" ∧
    lookup_table (add_symbol [⟨"myVar", 7⟩] "testVar" 42) "myVar" = some ⟨"myVar", 7⟩ ∧
    lookup_table (add_symbols [] [("myVar", 7), ("testVar", 42), ("myVar", 99)]) "nonExistentVar"
      = none :=
  ⟨by decide,
    (add_symbol_frame [⟨"myVar", 7⟩] "testVar" "myVar" 42 (by decide)).1,
    (add_symbol_frame [] "testVar" "nonExistentVar" 42 (by decide)).2
      [("myVar", 7), ("testVar", 42), ("myVar", 99)] (by decide)⟩

end Interp
